import Mathlib

/-!
Verification of the tf2xla graph-preparation utilities
(`tensorflow/compiler/tf2xla/tf2xla_util.cc`).

The C++ source is embedded shallowly: protobuf messages become structures,
`Status`-returning functions become `Except Error` computations, the mutable
`Graph` class becomes explicit state passing over an edge-list record, and the
process-wide atomic seed counter becomes an explicit counter value threaded
through calls.  Machine integers are modelled as `Nat` with explicit `% 2 ^ 32`
where overflow matters.  Collaborator code that lives outside this repository
slice (tensor-name parsing, `TensorShape::IsValidShape`, the op registry, the
function library, `Status::Update`) is modelled from the specification and
marked as such on each definition.
-/

namespace Tf2XlaUtil

/-- Error kinds used by the embedded `Status` values. -/
inductive ErrorCode where
  | InvalidArgument
  | NotFound
  | Internal
deriving DecidableEq, Repr

/-- An error `Status`: a kind plus a message. -/
structure Error where
  code : ErrorCode
  msg : String
deriving DecidableEq, Repr

mutual
/-- Embedded protobuf `AttrValue`: only the payloads the claims touch are
distinguished; every other payload is collapsed into `blank`.  The `func`
payload carries a function name and its own attribute map, which makes the
type recursive (hence the mutual block with `AttrList`). -/
inductive AttrValue where
  | typ (t : Nat)
  | shape (dims : List Int)
  | func (fname : String) (fattr : AttrList)
  | blank
deriving DecidableEq, Repr

/-- Association list of named attributes, as a standalone inductive so that
`DecidableEq` can be derived for the mutual pair. -/
inductive AttrList where
  | nil
  | cons (key : String) (val : AttrValue) (rest : AttrList)
deriving DecidableEq, Repr
end

/-- Embedded `tf2xla::TensorId`: a node name plus an output slot.  The slot is
an `Int` because the proto field is a signed integer and `ValidateConfig`
checks it for negativity. -/
structure TensorId where
  node_name : String
  output_index : Int
deriving DecidableEq, Repr

/-- Embedded `tf2xla::Feed`.  `type_` is the declared data type, with `0`
playing the role of `DT_INVALID` (that is, "no explicit type"). -/
structure Feed where
  id : TensorId
  shape : List Int
  type_ : Nat
  name : String
deriving DecidableEq, Repr

/-- Embedded `tf2xla::Fetch`. -/
structure Fetch where
  id : TensorId
  name : String
deriving DecidableEq, Repr

/-- Embedded `tf2xla::Config`: ordered feeds and fetches. -/
structure Config where
  feed : List Feed
  fetch : List Fetch
deriving DecidableEq, Repr

/-- Embedded `NodeDef`: name, op type, serialized inputs (each a tensor-name
string such as `"a:1"`, `"a"` or `"^a"`), attributes, and a device field. -/
structure NodeDef where
  name : String
  op : String
  input : List String
  attr : List (String × AttrValue)
  device : String
deriving DecidableEq, Repr

/-- Embedded `GraphDef`: the node list plus the remaining fields (versions)
collapsed into one carried value, so that `*out = in; out->clear_node();`
keeps them observable. -/
structure GraphDef where
  node : List NodeDef
  versions : Nat
deriving DecidableEq, Repr

/-- `TensorIdToString` from the source: `absl::StrCat(node_name, ":", index)`. -/
def TensorIdToString (id : TensorId) : String :=
  id.node_name ++ ":" ++ toString id.output_index

/-! ### Byte-wise string ordering

`std::map<string, ...>` and `std::set<string>` order keys with
`std::less<string>`, plain lexicographic comparison.  Lean's built-in `String`
order does not reduce inside the kernel, so the comparison is embedded
explicitly over the character list. -/

/-- Lexicographic comparison of character lists by code point, modelling
`std::less<string>`. -/
def strLtB : List Char → List Char → Bool
  | [], [] => false
  | [], _ :: _ => true
  | _ :: _, [] => false
  | a :: as, b :: bs =>
    if a.toNat < b.toNat then true
    else if b.toNat < a.toNat then false
    else strLtB as bs

/-- String comparison used wherever the source relies on `std::less<string>`. -/
def strLt (a b : String) : Bool := strLtB a.data b.data

lemma charEq {x y : Char} (h1 : ¬ x.toNat < y.toNat) (h2 : ¬ y.toNat < x.toNat) : x = y := by
  apply Char.eq_of_val_eq
  unfold Char.toNat at h1 h2
  exact UInt32.ext_iff.mpr (by omega)

lemma strLtB_trans : ∀ a b c, strLtB a b = true → strLtB b c = true → strLtB a c = true := by
  intro a
  induction a with
  | nil =>
    intro b c h1 h2
    cases b with
    | nil => simp [strLtB] at h1
    | cons x xs =>
      cases c with
      | nil => simp [strLtB] at h2
      | cons y ys => simp [strLtB]
  | cons x xs ih =>
    intro b c h1 h2
    cases b with
    | nil => simp [strLtB] at h1
    | cons y ys =>
      cases c with
      | nil => simp [strLtB] at h2
      | cons z zs =>
        simp only [strLtB] at h1 h2 ⊢
        by_cases hxy : x.toNat < y.toNat
        · by_cases hyz : y.toNat < z.toNat
          · rw [if_pos (by omega)]
          · rw [if_neg hyz] at h2
            by_cases hzy : z.toNat < y.toNat
            · rw [if_pos hzy] at h2; cases h2
            · have : y = z := charEq hyz hzy
              subst this
              rw [if_pos hxy]
        · rw [if_neg hxy] at h1
          by_cases hyx : y.toNat < x.toNat
          · rw [if_pos hyx] at h1; cases h1
          · have hxey : x = y := charEq hxy hyx
            subst hxey
            rw [if_neg hxy] at h1
            by_cases hxz : x.toNat < z.toNat
            · rw [if_pos hxz]
            · rw [if_neg hxz] at h2 ⊢
              by_cases hzx : z.toNat < x.toNat
              · rw [if_pos hzx] at h2; cases h2
              · rw [if_neg hzx] at h2 ⊢
                exact ih ys zs h1 h2

lemma strLtB_antisymm : ∀ a b, strLtB a b = false → strLtB b a = false → a = b := by
  intro a
  induction a with
  | nil =>
    intro b h1 _
    cases b with
    | nil => rfl
    | cons y ys => simp [strLtB] at h1
  | cons x xs ih =>
    intro b h1 h2
    cases b with
    | nil => simp [strLtB] at h2
    | cons y ys =>
      simp only [strLtB] at h1 h2
      by_cases hxy : x.toNat < y.toNat
      · rw [if_pos hxy] at h1; cases h1
      · by_cases hyx : y.toNat < x.toNat
        · rw [if_pos hyx] at h2; cases h2
        · have hxey : x = y := charEq hxy hyx
          subst hxey
          rw [if_neg hxy, if_neg hyx] at h1
          rw [if_neg hyx, if_neg hxy] at h2
          rw [ih ys h1 h2]

lemma strLt_trans {a b c : String} (h1 : strLt a b = true) (h2 : strLt b c = true) :
    strLt a c = true := strLtB_trans a.data b.data c.data h1 h2

lemma strLt_antisymm {a b : String} (h1 : strLt a b = false) (h2 : strLt b a = false) : a = b := by
  have h := strLtB_antisymm a.data b.data h1 h2
  cases a; cases b; simp at h; rw [h]

/-! ### 4.1 ValidateConfig (source lines 44-100) -/

/-- `ValidateTensorId` (source lines 44-52). -/
def ValidateTensorId (id : TensorId) : Except Error Unit :=
  if id.node_name = "" then
    .error ⟨.InvalidArgument, "TensorId node_name must be non-empty"⟩
  else if id.output_index < 0 then
    .error ⟨.InvalidArgument, "TensorId output_index must be positive"⟩
  else .ok ()

/-- Modelled from the spec: `TensorShape::IsValidShape` lives outside this
repository slice; per the spec a feed's shape "must be a valid shape (no
negative dimensions); else `InvalidArgument`". -/
def IsValidShape (shape : List Int) : Except Error Unit :=
  if shape.all (fun d => 0 ≤ d) then .ok ()
  else .error ⟨.InvalidArgument, "Shape has negative dimensions"⟩

/-- `CheckNameDuplicates` (source lines 54-62).  The `std::set` of seen names
is carried as a list; only membership is observable apart from the iteration
order of the conflict scan below. -/
def CheckNameDuplicates (kind name : String) (names : List String) :
    Except Error (List String) :=
  if name ≠ "" then
    if name ∈ names then
      .error ⟨.InvalidArgument, "duplicate " ++ kind ++ " name: " ++ name⟩
    else .ok (names ++ [name])
  else .ok names

/-- `CheckFeedFetchNameConflicts` (source lines 64-76): reject `X` together
with `X_data`.  The C++ loop reports the first conflict in `std::set` order;
here the first conflict in insertion order is reported, which can differ only
in the error message, never in whether an error is raised. -/
def CheckFeedFetchNameConflicts (kind : String) (names : List String) :
    Except Error Unit :=
  match names.find? (fun name => (name ++ "_data") ∈ names) with
  | some name =>
      .error ⟨.InvalidArgument,
        "conflicting " ++ kind ++ " name: " ++ name ++ " and " ++ name ++ "_data"⟩
  | none => .ok ()

/-- The feed loop of `ValidateConfig` (source lines 84-88). -/
def validateFeedsLoop : List Feed → List String → Except Error (List String)
  | [], names => .ok names
  | f :: rest, names => do
    ValidateTensorId f.id
    IsValidShape f.shape
    let names' ← CheckNameDuplicates "feed" f.name names
    validateFeedsLoop rest names'

/-- The fetch loop of `ValidateConfig` (source lines 91-94). -/
def validateFetchesLoop : List Fetch → List String → Except Error (List String)
  | [], names => .ok names
  | f :: rest, names => do
    ValidateTensorId f.id
    let names' ← CheckNameDuplicates "fetch" f.name names
    validateFetchesLoop rest names'

/-- `ValidateConfig` (source lines 82-100). -/
def ValidateConfig (config : Config) : Except Error Unit := do
  let names ← validateFeedsLoop config.feed []
  CheckFeedFetchNameConflicts "feed" names
  let names2 ← validateFetchesLoop config.fetch []
  CheckFeedFetchNameConflicts "fetch" names2
  if config.fetch.isEmpty then
    Except.error ⟨.InvalidArgument, "fetches must be specified"⟩
  else Except.ok ()

lemma validateTensorId_code {id : TensorId} {e : Error}
    (h : ValidateTensorId id = .error e) : e.code = .InvalidArgument := by
  unfold ValidateTensorId at h
  split at h
  · cases h; rfl
  · split at h
    · cases h; rfl
    · cases h

lemma isValidShape_code {s : List Int} {e : Error}
    (h : IsValidShape s = .error e) : e.code = .InvalidArgument := by
  unfold IsValidShape at h
  split at h
  · cases h
  · cases h; rfl

lemma checkNameDuplicates_code {kind name : String} {names : List String} {e : Error}
    (h : CheckNameDuplicates kind name names = .error e) : e.code = .InvalidArgument := by
  unfold CheckNameDuplicates at h
  split at h
  · split at h
    · cases h; rfl
    · cases h
  · cases h

lemma checkFeedFetchNameConflicts_code {kind : String} {names : List String} {e : Error}
    (h : CheckFeedFetchNameConflicts kind names = .error e) : e.code = .InvalidArgument := by
  unfold CheckFeedFetchNameConflicts at h
  split at h
  · cases h; rfl
  · cases h

lemma validateFeedsLoop_code {feeds : List Feed} {names : List String} {e : Error}
    (h : validateFeedsLoop feeds names = .error e) : e.code = .InvalidArgument := by
  induction feeds generalizing names with
  | nil => simp [validateFeedsLoop] at h
  | cons f rest ih =>
    simp only [validateFeedsLoop, bind, Except.bind] at h
    cases h1 : ValidateTensorId f.id with
    | error e1 =>
      rw [h1] at h
      cases h
      exact validateTensorId_code h1
    | ok u =>
      rw [h1] at h
      cases h2 : IsValidShape f.shape with
      | error e2 =>
        rw [h2] at h
        cases h
        exact isValidShape_code h2
      | ok u2 =>
        rw [h2] at h
        cases h3 : CheckNameDuplicates "feed" f.name names with
        | error e3 =>
          rw [h3] at h
          cases h
          exact checkNameDuplicates_code h3
        | ok names' =>
          rw [h3] at h
          exact ih h

/-- Claim C9: for every config whose fetch sequence is empty, `ValidateConfig`
returns an `InvalidArgument` error — whatever the feeds contain, either an
earlier feed check fires (every feed-side failure is `InvalidArgument`) or the
final empty-fetch check fires. -/
theorem validateConfig_empty_fetch_invalid_argument (config : Config)
    (hempty : config.fetch = []) :
    ∃ msg, ValidateConfig config = .error ⟨.InvalidArgument, msg⟩ := by
  cases h1 : validateFeedsLoop config.feed [] with
  | error e1 =>
    obtain ⟨c, m⟩ := e1
    cases validateFeedsLoop_code h1
    exact ⟨m, by simp [ValidateConfig, bind, Except.bind, h1]⟩
  | ok names =>
    cases h2 : CheckFeedFetchNameConflicts "feed" names with
    | error e2 =>
      obtain ⟨c, m⟩ := e2
      cases checkFeedFetchNameConflicts_code h2
      exact ⟨m, by simp [ValidateConfig, bind, Except.bind, h1, h2]⟩
    | ok u =>
      refine ⟨"fetches must be specified", ?_⟩
      simp only [ValidateConfig, bind, Except.bind, h1, h2, hempty, validateFetchesLoop]
      simp [CheckFeedFetchNameConflicts, List.find?]

/-- Witness for C9 at a concrete config: a config with one feed and no
fetches is rejected with `InvalidArgument`. -/
theorem validateConfig_empty_fetch_invalid_argument_witness :
    (⟨[⟨⟨"a", 0⟩, [], 0, ""⟩], []⟩ : Config).fetch = [] ∧
    ∃ msg, ValidateConfig ⟨[⟨⟨"a", 0⟩, [], 0, ""⟩], []⟩ = .error ⟨.InvalidArgument, msg⟩ :=
  ⟨rfl, validateConfig_empty_fetch_invalid_argument _ rfl⟩

/-! ### GetXLARandomSeed (source lines 305-328)

The process-wide `std::atomic<uint32> counter` is modelled as an explicit
counter value; `counter.fetch_add(2)` returns the old value and stores the
incremented one with 32-bit wraparound.  The claims quantify over call
sequences, so the state after `k` calls is `seedCounterAt init k` and the
value returned by call `k` is the state before that call. -/

/-- `InitialRandomSeed` (source lines 306-318): draw from the entropy source
and force the low bit, producing an odd 32-bit start value.  The
`std::random_device` draw is the `entropy` argument. -/
def InitialRandomSeed (entropy : Nat) : Nat :=
  (entropy % 2 ^ 32) ||| 1

/-- `GetXLARandomSeed` (source lines 321-328) as a state transformer: returns
the current counter and the counter advanced by two with 32-bit wraparound
(`fetch_add(2)` on a `uint32`). -/
def GetXLARandomSeed (counter : Nat) : Nat × Nat :=
  (counter, (counter + 2) % 2 ^ 32)

/-- Counter value before the `k`-th call, starting from `init`. -/
def seedCounterAt (init : Nat) : Nat → Nat
  | 0 => init
  | k + 1 => (GetXLARandomSeed (seedCounterAt init k)).2

lemma or_one_mod_two (x : Nat) : (x ||| 1) % 2 = 1 := by
  have h := Nat.testBit_or x 1 0
  rw [Nat.testBit_zero, Nat.testBit_zero, Nat.testBit_zero] at h
  rcases Decidable.em ((x ||| 1) % 2 = 1) with hh | hh
  · exact hh
  · rw [decide_eq_false hh] at h
    simp at h

lemma initialRandomSeed_lt (entropy : Nat) : InitialRandomSeed entropy < 2 ^ 32 :=
  Nat.or_lt_two_pow (Nat.mod_lt _ (by norm_num)) (by norm_num)

lemma initialRandomSeed_odd (entropy : Nat) : InitialRandomSeed entropy % 2 = 1 :=
  or_one_mod_two _

lemma seedCounterAt_closed (init : Nat) (hlt : init < 2 ^ 32) :
    ∀ k, seedCounterAt init k = (init + 2 * k) % 2 ^ 32 := by
  intro k
  induction k with
  | zero => simp [seedCounterAt]; omega
  | succ n ih =>
    show (GetXLARandomSeed (seedCounterAt init n)).2 = _
    rw [ih]
    unfold GetXLARandomSeed
    simp only []
    omega

/-- Claim C8: starting from `InitialRandomSeed entropy`, the counter starts
odd, every call advances it by two with 32-bit wraparound, every returned
seed is odd (hence nonzero), and no value repeats within `2 ^ 31` consecutive
calls. -/
theorem getXLARandomSeed_properties (entropy i j k : Nat)
    (hij : i < j) (hwin : j - i < 2 ^ 31) :
    InitialRandomSeed entropy % 2 = 1 ∧
    (GetXLARandomSeed (seedCounterAt (InitialRandomSeed entropy) k)).1 =
      seedCounterAt (InitialRandomSeed entropy) k ∧
    seedCounterAt (InitialRandomSeed entropy) (k + 1) =
      (seedCounterAt (InitialRandomSeed entropy) k + 2) % 2 ^ 32 ∧
    seedCounterAt (InitialRandomSeed entropy) k % 2 = 1 ∧
    seedCounterAt (InitialRandomSeed entropy) k ≠ 0 ∧
    seedCounterAt (InitialRandomSeed entropy) i ≠
      seedCounterAt (InitialRandomSeed entropy) j := by
  have hodd := initialRandomSeed_odd entropy
  have hlt := initialRandomSeed_lt entropy
  have hc := seedCounterAt_closed (InitialRandomSeed entropy) hlt
  refine ⟨hodd, rfl, rfl, ?_, ?_, ?_⟩
  · rw [hc k]; omega
  · rw [hc k]; omega
  · rw [hc i, hc j]
    intro he
    omega

/-- Witness for C8 at concrete indices. -/
theorem getXLARandomSeed_properties_witness :
    (7 : Nat) < 9 ∧ (9 : Nat) - 7 < 2 ^ 31 ∧
    (InitialRandomSeed 4 % 2 = 1 ∧
      (GetXLARandomSeed (seedCounterAt (InitialRandomSeed 4) 2)).1 =
        seedCounterAt (InitialRandomSeed 4) 2 ∧
      seedCounterAt (InitialRandomSeed 4) (2 + 1) =
        (seedCounterAt (InitialRandomSeed 4) 2 + 2) % 2 ^ 32 ∧
      seedCounterAt (InitialRandomSeed 4) 2 % 2 = 1 ∧
      seedCounterAt (InitialRandomSeed 4) 2 ≠ 0 ∧
      seedCounterAt (InitialRandomSeed 4) 7 ≠ seedCounterAt (InitialRandomSeed 4) 9) :=
  ⟨by norm_num, by norm_num,
    getXLARandomSeed_properties 4 7 9 2 (by norm_num) (by norm_num)⟩

/-! ### CachedFunctionHandles::ReleaseAllHandles (source lines 458-465)

The function-library runtime collaborator is a pure function from handles to
an optional error (`none` = OK).  The cache is an association list from
canonicalized keys to handles.  To make "every release is attempted"
expressible, the embedding also returns the ordered log of handles passed to
the collaborator. -/

/-- Modelled from the spec: `Status::Update` is external to this slice; per
the spec, release_all aggregates all release failures "into one combined
error", so a second failure is folded into the first rather than dropped or
short-circuited.  `none` plays the role of `Status::OK()`. -/
def statusUpdate : Option Error → Option Error → Option Error
  | none, s => s
  | some e, none => some e
  | some e, some e2 => some ⟨e.code, e.msg ++ "; " ++ e2.msg⟩

/-- `CachedFunctionHandles::ReleaseAllHandles`: fold `statusUpdate` over the
release result of every cached handle, then clear the cache.  Returns the
combined status, the log of handles the collaborator was asked to release (in
order), and the new cache contents. -/
def ReleaseAllHandles (release : Nat → Option Error) (handles : List (String × Nat)) :
    Option Error × List Nat × List (String × Nat) :=
  let r := handles.foldl
    (fun (acc : Option Error × List Nat) kv =>
      (statusUpdate acc.1 (release kv.2), acc.2 ++ [kv.2]))
    (none, [])
  (r.1, r.2, [])

lemma statusUpdate_eq_none {a b : Option Error} :
    statusUpdate a b = none ↔ a = none ∧ b = none := by
  cases a <;> cases b <;> simp [statusUpdate]

lemma releaseAll_foldl (release : Nat → Option Error) :
    ∀ (handles : List (String × Nat)) (s : Option Error) (l : List Nat),
      (handles.foldl
        (fun (acc : Option Error × List Nat) kv =>
          (statusUpdate acc.1 (release kv.2), acc.2 ++ [kv.2])) (s, l)).2 =
        l ++ handles.map (·.2) ∧
      ((handles.foldl
        (fun (acc : Option Error × List Nat) kv =>
          (statusUpdate acc.1 (release kv.2), acc.2 ++ [kv.2])) (s, l)).1 = none ↔
        (s = none ∧ ∀ kv ∈ handles, release kv.2 = none)) := by
  intro handles
  induction handles with
  | nil => intro s l; simp
  | cons kv rest ih =>
    intro s l
    simp only [List.foldl_cons, List.map_cons]
    obtain ⟨ihl, ihs⟩ := ih (statusUpdate s (release kv.2)) (l ++ [kv.2])
    refine ⟨by rw [ihl]; simp, ?_⟩
    rw [ihs, statusUpdate_eq_none]
    constructor
    · rintro ⟨⟨h1, h2⟩, h3⟩
      refine ⟨h1, ?_⟩
      intro x hx
      rcases List.mem_cons.mp hx with h | h
      · cases h; exact h2
      · exact h3 x h
    · rintro ⟨h1, h2⟩
      exact ⟨⟨h1, h2 kv (List.mem_cons_self kv rest)⟩,
        fun x hx => h2 x (List.mem_cons_of_mem kv hx)⟩

/-- Claim C4: `ReleaseAllHandles` asks the collaborator to release every
cached handle (in cache order, with no short-circuit on failure), clears the
cache unconditionally, and returns OK exactly when every individual release
succeeded — failures are combined into the single returned error. -/
theorem releaseAllHandles_properties (release : Nat → Option Error)
    (handles : List (String × Nat)) :
    (ReleaseAllHandles release handles).2.1 = handles.map (·.2) ∧
    (ReleaseAllHandles release handles).2.2 = [] ∧
    ((ReleaseAllHandles release handles).1 = none ↔
      ∀ kv ∈ handles, release kv.2 = none) := by
  obtain ⟨hl, hs⟩ := releaseAll_foldl release handles none []
  refine ⟨by simpa [ReleaseAllHandles] using hl, rfl, ?_⟩
  unfold ReleaseAllHandles
  simp only []
  rw [hs]
  simp

/-! ### Function library and associated functions (source lines 330-441) -/

/-- Modelled from the spec: the function-library collaborator interface —
subroutine names plus a gradient mapping.  Only name membership and the
gradient map are observable here. -/
structure FunctionLibraryDefinition where
  funcs : List String
  gradients : List (String × String)
deriving DecidableEq, Repr

/-- Modelled from the spec: the reserved gradient-operator op type
(`FunctionLibraryDefinition::kGradientOp`). -/
def kGradientOp : String := "SymbolicGradient"

/-- Modelled from the spec: the reserved function-valued attribute name
(`FunctionLibraryDefinition::kFuncAttr`). -/
def kFuncAttr : String := "f"

/-- `FunctionLibraryDefinition::Contains`. -/
def FunctionLibraryDefinition.Contains (fld : FunctionLibraryDefinition)
    (name : String) : Bool :=
  fld.funcs.contains name

/-- `FunctionLibraryDefinition::FindGradient`: the registered gradient
function for `name`, or the empty string when none is registered. -/
def FunctionLibraryDefinition.FindGradient (fld : FunctionLibraryDefinition)
    (name : String) : String :=
  match fld.gradients.find? (fun p => p.1 = name) with
  | some p => p.2
  | none => ""

/-- Convert the nested attribute payload of a `func` attribute into the same
list form used for node attribute maps. -/
def AttrList.toList : AttrList → List (String × AttrValue)
  | .nil => []
  | .cons k v rest => (k, v) :: rest.toList

/-- The three shapes of `AssociatedFunctionInfo` (source header). -/
inductive AssociatedFunctionType where
  | kFunctionCallNode
  | kSymbolicGradient
  | kFunctionAttr
deriving DecidableEq, Repr

/-- Embedded `AssociatedFunctionInfo`: tag, subroutine name, attribute set,
and (for the attr shape) the owning attribute's name. -/
structure AssociatedFunctionInfo where
  type_ : AssociatedFunctionType
  func_name : String
  attrs : List (String × AttrValue)
  attr_name : String
deriving DecidableEq, Repr

/-- `AssociatedFunctionInfo::FunctionCall`. -/
def AssociatedFunctionInfo.FunctionCall (name : String)
    (attrs : List (String × AttrValue)) : AssociatedFunctionInfo :=
  ⟨.kFunctionCallNode, name, attrs, ""⟩

/-- `AssociatedFunctionInfo::SymbolicGradient`. -/
def AssociatedFunctionInfo.SymbolicGradient (name : String)
    (attrs : List (String × AttrValue)) : AssociatedFunctionInfo :=
  ⟨.kSymbolicGradient, name, attrs, ""⟩

/-- `AssociatedFunctionInfo::FunctionAttr`. -/
def AssociatedFunctionInfo.FunctionAttr (name : String)
    (attrs : List (String × AttrValue)) (attr_name : String) :
    AssociatedFunctionInfo :=
  ⟨.kFunctionAttr, name, attrs, attr_name⟩

/-- `GetAssociatedFunctions` (source lines 352-376): a call node if the op is
in the library, else a symbolic-gradient entry if the op is the gradient
marker, else one `FunctionAttr` entry per function-valued attribute. -/
def GetAssociatedFunctions (node : NodeDef) (fld : FunctionLibraryDefinition) :
    List AssociatedFunctionInfo :=
  if fld.Contains node.op then
    [AssociatedFunctionInfo.FunctionCall node.op node.attr]
  else if node.op = kGradientOp then
    [AssociatedFunctionInfo.SymbolicGradient node.op node.attr]
  else
    node.attr.foldl
      (fun results kv =>
        match kv.2 with
        | .func fname fattr =>
            results ++ [AssociatedFunctionInfo.FunctionAttr fname fattr.toList kv.1]
        | _ => results)
      []

/-- The function-valued attributes of a node, in attribute order, as
`FunctionAttr` entries. -/
def functionAttrEntries (attrs : List (String × AttrValue)) :
    List AssociatedFunctionInfo :=
  attrs.filterMap (fun kv =>
    match kv.2 with
    | .func fname fattr => some (AssociatedFunctionInfo.FunctionAttr fname fattr.toList kv.1)
    | _ => none)

lemma getAssociatedFunctions_foldl (attrs : List (String × AttrValue)) :
    ∀ acc : List AssociatedFunctionInfo,
      attrs.foldl
        (fun results kv =>
          match kv.2 with
          | .func fname fattr =>
              results ++ [AssociatedFunctionInfo.FunctionAttr fname fattr.toList kv.1]
          | _ => results)
        acc = acc ++ functionAttrEntries attrs := by
  induction attrs with
  | nil => intro acc; simp [functionAttrEntries]
  | cons kv rest ih =>
    intro acc
    simp only [List.foldl_cons]
    cases hv : kv.2 <;>
      simp [hv, ih, functionAttrEntries, List.filterMap_cons]

lemma functionAttrEntries_type {attrs : List (String × AttrValue)}
    {x : AssociatedFunctionInfo} (hx : x ∈ functionAttrEntries attrs) :
    x.type_ = .kFunctionAttr := by
  rcases List.mem_filterMap.mp hx with ⟨kv, _, hkv⟩
  cases hv : kv.2 <;> simp [hv] at hkv
  rw [← hkv]
  rfl

/-- Claim C5: the resolver returns entries of exactly one shape — one
`FunctionCall` entry when the op is a registered subroutine (this takes
precedence), one `SymbolicGradient` entry when the op is the gradient marker,
and otherwise one `FunctionAttr` entry per function-valued attribute; the
result never mixes shapes. -/
theorem getAssociatedFunctions_shapes (node : NodeDef)
    (fld : FunctionLibraryDefinition) :
    (fld.Contains node.op = true →
      GetAssociatedFunctions node fld =
        [AssociatedFunctionInfo.FunctionCall node.op node.attr]) ∧
    (fld.Contains node.op = false → node.op = kGradientOp →
      GetAssociatedFunctions node fld =
        [AssociatedFunctionInfo.SymbolicGradient node.op node.attr]) ∧
    (fld.Contains node.op = false → node.op ≠ kGradientOp →
      GetAssociatedFunctions node fld = functionAttrEntries node.attr) ∧
    (∀ x ∈ GetAssociatedFunctions node fld, ∀ y ∈ GetAssociatedFunctions node fld,
      x.type_ = y.type_) := by
  have hcall : fld.Contains node.op = true →
      GetAssociatedFunctions node fld =
        [AssociatedFunctionInfo.FunctionCall node.op node.attr] := by
    intro h
    unfold GetAssociatedFunctions
    rw [h]
    simp
  have hgrad : fld.Contains node.op = false → node.op = kGradientOp →
      GetAssociatedFunctions node fld =
        [AssociatedFunctionInfo.SymbolicGradient node.op node.attr] := by
    intro h1 h2
    unfold GetAssociatedFunctions
    rw [h1]
    simp only [Bool.false_eq_true, if_false]
    rw [if_pos h2]
  have hattr : fld.Contains node.op = false → node.op ≠ kGradientOp →
      GetAssociatedFunctions node fld = functionAttrEntries node.attr := by
    intro h1 h2
    unfold GetAssociatedFunctions
    rw [h1]
    simp only [Bool.false_eq_true, if_false]
    rw [if_neg h2, getAssociatedFunctions_foldl]
    simp
  refine ⟨hcall, hgrad, hattr, ?_⟩
  intro x hx y hy
  cases hb : fld.Contains node.op
  · by_cases h2 : node.op = kGradientOp
    · rw [hgrad hb h2] at hx hy
      simp at hx hy
      rw [hx, hy]
    · rw [hattr hb h2] at hx hy
      rw [functionAttrEntries_type hx, functionAttrEntries_type hy]
  · rw [hcall hb] at hx hy
    simp at hx hy
    rw [hx, hy]

/-- Witness for C5 at concrete inputs: a node whose attribute `"body"` holds a
reference to subroutine `"F"` yields exactly one `FunctionAttr` entry. -/
theorem getAssociatedFunctions_shapes_witness :
    ((⟨["g"], []⟩ : FunctionLibraryDefinition).Contains "myop" = false) ∧
    ("myop" ≠ kGradientOp) ∧
    GetAssociatedFunctions ⟨"n", "myop", [], [("body", .func "F" .nil)], ""⟩ ⟨["g"], []⟩ =
      functionAttrEntries [("body", .func "F" .nil)] := by
  refine ⟨by decide, by decide, ?_⟩
  exact (getAssociatedFunctions_shapes ⟨"n", "myop", [], [("body", .func "F" .nil)], ""⟩
    ⟨["g"], []⟩).2.2.1 (by decide) (by decide)

/-! ### The mutable `Graph` class

Modelled from the spec (graph collaborator interface): nodes are addressed by
stable numeric ids standing in for the C++ `Node*` pointers, with `nextId`
the next unused id.  `AddNode` inserts an isolated node (edge wiring is a
separate step, as in the C++ class), `AddEdge` appends an edge, and
`RemoveNode` removes the node together with every incident edge. -/
structure Edge where
  src : Nat
  src_output : Int
  dst : Nat
  dst_input : Int
deriving DecidableEq, Repr

/-- The graph state: id-addressed nodes, an edge list, and the next fresh id. -/
structure Graph where
  nodes : List (Nat × NodeDef)
  edges : List Edge
  nextId : Nat
deriving DecidableEq, Repr

/-- Modelled from the spec: `Graph::AddNode` — insert an isolated node under a
fresh id and return it.  Construction-time validation of the `NodeDef` happens
in external registry code, so the embedding covers the success path. -/
def Graph.AddNode (g : Graph) (nd : NodeDef) : Graph × Nat :=
  ({ g with nodes := g.nodes ++ [(g.nextId, nd)], nextId := g.nextId + 1 }, g.nextId)

/-- Modelled from the spec: `Graph::AddEdge`. -/
def Graph.AddEdge (g : Graph) (src : Nat) (src_output : Int) (dst : Nat)
    (dst_input : Int) : Graph :=
  { g with edges := g.edges ++ [⟨src, src_output, dst, dst_input⟩] }

/-- Modelled from the spec: `Graph::RemoveEdge` over a whole out-edge set —
`ReplaceNode` removes every collected out edge, which on the edge list is a
filter. -/
def Graph.RemoveSrcEdges (g : Graph) (n : Nat) : Graph :=
  { g with edges := g.edges.filter (fun e => ¬ e.src = n) }

/-- Modelled from the spec: `Graph::RemoveNode` — drop the node and every
incident edge. -/
def Graph.RemoveNode (g : Graph) (n : Nat) : Graph :=
  { g with
    nodes := g.nodes.filter (fun p => p.1 ≠ n),
    edges := g.edges.filter (fun e => e.src ≠ n ∧ e.dst ≠ n) }

/-- Node lookup by id (the dereference of a C++ `Node*`). -/
def Graph.FindNodeId (g : Graph) (n : Nat) : Option NodeDef :=
  (g.nodes.find? (fun p => p.1 = n)).map (·.2)

/-- `ReplaceNode` (source lines 467-501): create the replacement node, record
and detach the original's out edges first (to avoid transient duplicate
producers), re-create the original's in edges and then its out edges on the
new node, and finally remove the original node. -/
def ReplaceNode (g : Graph) (n : Nat) (node_def : NodeDef) : Graph × Nat :=
  let r := g.AddNode node_def
  let g1 := r.1
  let new_node := r.2
  let out_edge_info := (g1.edges.filter (fun e => e.src = n)).map
    (fun e => (e.dst, e.src_output, e.dst_input))
  let g2 := g1.RemoveSrcEdges n
  let in_edges := g2.edges.filter (fun e => e.dst = n)
  let g3 := in_edges.foldl
    (fun acc e => acc.AddEdge e.src e.src_output new_node e.dst_input) g2
  let g4 := out_edge_info.foldl
    (fun acc oe => acc.AddEdge new_node oe.2.1 oe.1 oe.2.2) g3
  (g4.RemoveNode n, new_node)

/-- The multiset of edge descriptors incident to node `v`: direction flag
(`true` = outgoing), the other endpoint, source slot, destination slot, and
the control-edge flag (`src_output = -1`, the C++ `kControlSlot`).  A
self-loop contributes one incoming and one outgoing descriptor, exactly as it
appears in both `in_edges()` and `out_edges()`. -/
def incidentEdges (g : Graph) (v : Nat) : Multiset (Bool × Nat × Int × Int × Bool) :=
  ((g.edges.filter (fun e => e.dst = v)).map
      (fun e => (false, e.src, e.src_output, e.dst_input, decide (e.src_output = -1)))
    ++ (g.edges.filter (fun e => e.src = v)).map
      (fun e => (true, e.dst, e.src_output, e.dst_input, decide (e.src_output = -1))) : List _)

lemma foldl_addEdge_in (new : Nat) :
    ∀ (l : List Edge) (g : Graph),
      l.foldl (fun acc e => acc.AddEdge e.src e.src_output new e.dst_input) g =
        { g with edges := g.edges ++ l.map (fun e => Edge.mk e.src e.src_output new e.dst_input) } := by
  intro l
  induction l with
  | nil => intro g; simp
  | cons e rest ih =>
    intro g
    rw [List.foldl_cons, ih]
    simp [Graph.AddEdge]

lemma foldl_addEdge_out (new : Nat) :
    ∀ (l : List (Nat × Int × Int)) (g : Graph),
      l.foldl (fun acc oe => acc.AddEdge new oe.2.1 oe.1 oe.2.2) g =
        { g with edges := g.edges ++ l.map (fun oe => Edge.mk new oe.2.1 oe.1 oe.2.2) } := by
  intro l
  induction l with
  | nil => intro g; simp
  | cons oe rest ih =>
    intro g
    rw [List.foldl_cons, ih]
    simp [Graph.AddEdge]

lemma replaceNode_eq (g : Graph) (n : Nat) (nd : NodeDef) :
    ReplaceNode g n nd =
      ({ nodes := (g.nodes ++ [(g.nextId, nd)]).filter (fun p => p.1 ≠ n),
         edges :=
           ((g.edges.filter (fun e => ¬ e.src = n))
             ++ ((g.edges.filter (fun e => ¬ e.src = n)).filter (fun e => e.dst = n)).map
                 (fun e => Edge.mk e.src e.src_output g.nextId e.dst_input)
             ++ (g.edges.filter (fun e => e.src = n)).map
                 (fun e => Edge.mk g.nextId e.src_output e.dst e.dst_input)).filter
             (fun e => e.src ≠ n ∧ e.dst ≠ n),
         nextId := g.nextId + 1 }, g.nextId) := by
  unfold ReplaceNode
  simp only [Graph.AddNode, Graph.RemoveSrcEdges, Graph.RemoveNode]
  rw [foldl_addEdge_in, foldl_addEdge_out]
  simp [List.map_map, List.append_assoc, Function.comp]
  congr 1

/-- Claim C2 (amended): provided the graph is well formed — edge endpoints
and `n` lie below `nextId`, matching the freshness of a newly allocated C++
`Node*` — and `n` carries no self-loop, `ReplaceNode` removes `n` and
re-creates every data and control edge that was incident to `n` on the new
node: the multiset of (direction, other endpoint, source slot, destination
slot, control flag) descriptors incident to the new node afterwards equals
that of `n` before, with only the endpoint identity changed.  A self-loop is
the one exception (see the counterexample): its out-edge record is re-created
pointing at the old node and then deleted with it. -/
theorem replaceNode_preserves_incident_edges
    (g : Graph) (n : Nat) (nd : NodeDef)
    (hmem : n ∈ g.nodes.map (fun p => p.1))
    (hfresh : ∀ e ∈ g.edges, e.src < g.nextId ∧ e.dst < g.nextId)
    (hn : n < g.nextId)
    (hself : ∀ e ∈ g.edges, ¬(e.src = n ∧ e.dst = n)) :
    incidentEdges (ReplaceNode g n nd).1 (ReplaceNode g n nd).2 = incidentEdges g n ∧
    ∀ p ∈ (ReplaceNode g n nd).1.nodes, p.1 ≠ n := by
  rw [replaceNode_eq]
  constructor
  · unfold incidentEdges
    simp only []
    have hA :
        List.filter (fun e => decide (e.src ≠ n ∧ e.dst ≠ n))
          (List.filter (fun e => decide ¬e.src = n) g.edges) =
        List.filter (fun e => decide (e.src ≠ n ∧ e.dst ≠ n)) g.edges := by
      rw [List.filter_filter]
      apply List.filter_congr
      intro e _
      by_cases h1 : e.src = n <;> by_cases h2 : e.dst = n <;> simp [h1, h2]
    have hB :
        List.filter (fun e => decide (e.src ≠ n ∧ e.dst ≠ n))
          (List.map (fun e => Edge.mk e.src e.src_output g.nextId e.dst_input)
            (List.filter (fun e => decide (e.dst = n))
              (List.filter (fun e => decide ¬e.src = n) g.edges))) =
        List.map (fun e => Edge.mk e.src e.src_output g.nextId e.dst_input)
          (List.filter (fun e => decide (e.dst = n))
            (List.filter (fun e => decide ¬e.src = n) g.edges)) := by
      apply List.filter_eq_self.mpr
      intro b hb
      rcases List.mem_map.mp hb with ⟨e, he, rfl⟩
      have hsrc : ¬ e.src = n := by
        have := List.of_mem_filter (List.mem_of_mem_filter he)
        simpa using this
      simp [hsrc]
      omega
    have hC :
        List.filter (fun e => decide (e.src ≠ n ∧ e.dst ≠ n))
          (List.map (fun e => Edge.mk g.nextId e.src_output e.dst e.dst_input)
            (List.filter (fun e => decide (e.src = n)) g.edges)) =
        List.map (fun e => Edge.mk g.nextId e.src_output e.dst e.dst_input)
          (List.filter (fun e => decide (e.src = n)) g.edges) := by
      apply List.filter_eq_self.mpr
      intro b hb
      rcases List.mem_map.mp hb with ⟨e, he, rfl⟩
      have hsrc : e.src = n := by simpa using List.of_mem_filter he
      have hdst : ¬ e.dst = n := fun hc => hself e (List.mem_of_mem_filter he) ⟨hsrc, hc⟩
      simp [hdst]
      omega
    simp only [List.filter_append]
    simp only [hA, hB, hC]
    have hAins :
        List.filter (fun e => decide (e.dst = g.nextId))
          (List.filter (fun e => decide (e.src ≠ n ∧ e.dst ≠ n)) g.edges) = [] := by
      apply List.filter_eq_nil_iff.mpr
      intro e he
      have := (hfresh e (List.mem_of_mem_filter he)).2
      simp
      omega
    have hAouts :
        List.filter (fun e => decide (e.src = g.nextId))
          (List.filter (fun e => decide (e.src ≠ n ∧ e.dst ≠ n)) g.edges) = [] := by
      apply List.filter_eq_nil_iff.mpr
      intro e he
      have := (hfresh e (List.mem_of_mem_filter he)).1
      simp
      omega
    have hBins :
        List.filter (fun e => decide (e.dst = g.nextId))
          (List.map (fun e => Edge.mk e.src e.src_output g.nextId e.dst_input)
            (List.filter (fun e => decide (e.dst = n))
              (List.filter (fun e => decide ¬e.src = n) g.edges))) =
        List.map (fun e => Edge.mk e.src e.src_output g.nextId e.dst_input)
          (List.filter (fun e => decide (e.dst = n))
            (List.filter (fun e => decide ¬e.src = n) g.edges)) := by
      apply List.filter_eq_self.mpr
      intro b hb
      rcases List.mem_map.mp hb with ⟨e, _, rfl⟩
      simp
    have hBouts :
        List.filter (fun e => decide (e.src = g.nextId))
          (List.map (fun e => Edge.mk e.src e.src_output g.nextId e.dst_input)
            (List.filter (fun e => decide (e.dst = n))
              (List.filter (fun e => decide ¬e.src = n) g.edges))) = [] := by
      apply List.filter_eq_nil_iff.mpr
      intro b hb
      rcases List.mem_map.mp hb with ⟨e, he, rfl⟩
      have := (hfresh e (List.mem_of_mem_filter (List.mem_of_mem_filter he))).1
      simp
      omega
    have hCins :
        List.filter (fun e => decide (e.dst = g.nextId))
          (List.map (fun e => Edge.mk g.nextId e.src_output e.dst e.dst_input)
            (List.filter (fun e => decide (e.src = n)) g.edges)) = [] := by
      apply List.filter_eq_nil_iff.mpr
      intro b hb
      rcases List.mem_map.mp hb with ⟨e, he, rfl⟩
      have := (hfresh e (List.mem_of_mem_filter he)).2
      simp
      omega
    have hCouts :
        List.filter (fun e => decide (e.src = g.nextId))
          (List.map (fun e => Edge.mk g.nextId e.src_output e.dst e.dst_input)
            (List.filter (fun e => decide (e.src = n)) g.edges)) =
        List.map (fun e => Edge.mk g.nextId e.src_output e.dst e.dst_input)
          (List.filter (fun e => decide (e.src = n)) g.edges) := by
      apply List.filter_eq_self.mpr
      intro b hb
      rcases List.mem_map.mp hb with ⟨e, _, rfl⟩
      simp
    simp only [hAins, hAouts, hBins, hBouts, hCins, hCouts]
    have hdstfilter :
        List.filter (fun e => decide (e.dst = n))
          (List.filter (fun e => decide ¬e.src = n) g.edges) =
        List.filter (fun e => decide (e.dst = n)) g.edges := by
      rw [List.filter_filter]
      apply List.filter_congr
      intro e he
      by_cases h2 : e.dst = n
      · have h1 : ¬ e.src = n := fun hc => hself e he ⟨hc, h2⟩
        simp [h1, h2]
      · simp [h2]
    simp only [hdstfilter]
    simp [List.map_map, Function.comp]
    exact List.Perm.refl _
  · intro p hp
    simp at hp
    rcases hp with ⟨_, h⟩ | ⟨_, h⟩ <;> exact h

/-- A one-node graph whose node `0` carries a self-loop. -/
def selfLoopGraph : Graph :=
  { nodes := [(0, ⟨"a", "op", [], [], ""⟩)], edges := [⟨0, 0, 0, 0⟩], nextId := 1 }

/-- Counterexample to claim C2 as stated: on a graph whose node carries a
self-loop, `ReplaceNode` does not preserve the incident-edge multiset — the
self-loop's two incident descriptors vanish. -/
theorem replaceNode_self_loop_counterexample :
    (0 : Nat) ∈ selfLoopGraph.nodes.map (fun p => p.1) ∧
    incidentEdges (ReplaceNode selfLoopGraph 0 ⟨"a", "op", [], [], ""⟩).1
        (ReplaceNode selfLoopGraph 0 ⟨"a", "op", [], [], ""⟩).2 ≠
      incidentEdges selfLoopGraph 0 := by
  constructor
  · decide
  · decide

/-- A two-node graph with a single data edge `0 → 1`, used to witness the
amended claim C2. -/
def chainGraph : Graph :=
  { nodes := [(0, ⟨"a", "op", [], [], ""⟩), (1, ⟨"b", "op", ["a"], [], ""⟩)],
    edges := [⟨0, 0, 1, 0⟩], nextId := 2 }

/-- Witness for the amended claim C2 at a concrete graph. -/
theorem replaceNode_preserves_incident_edges_witness :
    ((1 : Nat) ∈ chainGraph.nodes.map (fun p => p.1) ∧
      (∀ e ∈ chainGraph.edges, e.src < chainGraph.nextId ∧ e.dst < chainGraph.nextId) ∧
      (1 : Nat) < chainGraph.nextId ∧
      (∀ e ∈ chainGraph.edges, ¬(e.src = 1 ∧ e.dst = 1))) ∧
    (incidentEdges (ReplaceNode chainGraph 1 ⟨"b2", "op", ["a"], [], ""⟩).1
        (ReplaceNode chainGraph 1 ⟨"b2", "op", ["a"], [], ""⟩).2 =
      incidentEdges chainGraph 1 ∧
      ∀ p ∈ (ReplaceNode chainGraph 1 ⟨"b2", "op", ["a"], [], ""⟩).1.nodes, p.1 ≠ 1) :=
  ⟨⟨by decide, by decide, by decide, by decide⟩,
    replaceNode_preserves_incident_edges chainGraph 1 ⟨"b2", "op", ["a"], [], ""⟩
      (by decide) (by decide) (by decide) (by decide)⟩

/-! ### RewriteAssociatedFunction (source lines 378-441) -/

/-- Modelled from the spec: `GetNodeAttr` for a `NameAttrList`-valued
attribute — look the attribute up by name and require a function payload. -/
def GetNodeAttrFunc (attrs : List (String × AttrValue)) (name : String) :
    Except Error (String × AttrList) :=
  match attrs.find? (fun kv => kv.1 = name) with
  | none => .error ⟨.NotFound, "No attr named " ++ name⟩
  | some kv =>
    match kv.2 with
    | .func fname fattr => .ok (fname, fattr)
    | _ => .error ⟨.InvalidArgument, "Attr " ++ name ++ " is not a func"⟩

/-- Modelled from the spec: `FunctionLibraryDefinition::AddGradientDef` —
register a gradient mapping that is not yet present. -/
def FunctionLibraryDefinition.AddGradientDef (fld : FunctionLibraryDefinition)
    (function_name gradient_func : String) : FunctionLibraryDefinition :=
  { fld with gradients := fld.gradients ++ [(function_name, gradient_func)] }

/-- Modelled from the spec: `FunctionLibraryDefinition::ReplaceGradient` —
replace the existing gradient mapping for `function_name`. -/
def FunctionLibraryDefinition.ReplaceGradient (fld : FunctionLibraryDefinition)
    (function_name gradient_func : String) : FunctionLibraryDefinition :=
  { fld with gradients := fld.gradients.map (fun p => if p.1 = function_name then (function_name, gradient_func) else p) }

/-- `Node::ClearAttr`. -/
def NodeDef.clearAttr (nd : NodeDef) (name : String) : NodeDef :=
  { nd with attr := nd.attr.filter (fun kv => kv.1 ≠ name) }

/-- `Node::AddAttr`. -/
def NodeDef.addAttr (nd : NodeDef) (name : String) (v : AttrValue) : NodeDef :=
  { nd with attr := nd.attr ++ [(name, v)] }

/-- In-place update of a node's definition, keyed by id. -/
def Graph.UpdateNode (g : Graph) (n : Nat) (nd : NodeDef) : Graph :=
  { g with nodes := g.nodes.map (fun p => if p.1 = n then (n, nd) else p) }

/-- `RewriteAssociatedFunction` (source lines 378-441).  The function-call
branch rebuilds the node under the rewritten op name and re-wires its edges
(the external `NodeDefBuilder` is modelled from the spec as assembling the
copied fields); the symbolic-gradient branch adds, replaces, or keeps the
library's gradient mapping; the function-attribute branch clears and re-sets
the owning attribute.  The node is addressed by id, standing in for the C++
`Node*` argument. -/
def RewriteAssociatedFunction (g : Graph) (n : Nat)
    (fld : FunctionLibraryDefinition) (af : AssociatedFunctionInfo)
    (rewritten_function_name : String) :
    Except Error (Graph × FunctionLibraryDefinition) :=
  match g.FindNodeId n with
  | none => .error ⟨.Internal, "node not found in graph"⟩
  | some node =>
    match af.type_ with
    | .kFunctionCallNode =>
      let node_def : NodeDef :=
        { name := node.name, op := rewritten_function_name, input := node.input,
          attr := node.attr, device := node.device }
      let r := g.AddNode node_def
      let g1 := r.1
      let new_node := r.2
      let g2 := (g1.edges.filter (fun e => e.dst = n)).foldl
        (fun acc e => acc.AddEdge e.src e.src_output new_node e.dst_input) g1
      let g3 := (g2.edges.filter (fun e => e.src = n)).foldl
        (fun acc e => acc.AddEdge new_node e.src_output e.dst e.dst_input) g2
      .ok (g3.RemoveNode n, fld)
    | .kSymbolicGradient =>
      match GetNodeAttrFunc node.attr kFuncAttr with
      | .error e => .error e
      | .ok fn =>
        let original_grad_func := fld.FindGradient fn.1
        if original_grad_func = "" then
          .ok (g, fld.AddGradientDef fn.1 rewritten_function_name)
        else if original_grad_func ≠ rewritten_function_name then
          .ok (g, fld.ReplaceGradient fn.1 rewritten_function_name)
        else
          .ok (g, fld)
    | .kFunctionAttr =>
      match GetNodeAttrFunc node.attr af.attr_name with
      | .error e => .error e
      | .ok fn =>
        let node' := (node.clearAttr af.attr_name).addAttr af.attr_name
          (.func rewritten_function_name fn.2)
        .ok (g.UpdateNode n node', fld)

lemma findGradient_addGradientDef_absent {fld : FunctionLibraryDefinition}
    {fname : String} (gf : String)
    (habs : fld.gradients.find? (fun p => p.1 = fname) = none) :
    (fld.AddGradientDef fname gf).FindGradient fname = gf := by
  unfold FunctionLibraryDefinition.FindGradient FunctionLibraryDefinition.AddGradientDef
  simp only [List.find?_append, habs]
  simp [List.find?]

lemma findGradient_addGradientDef_other {fld : FunctionLibraryDefinition}
    {fname other : String} (gf : String) (hne : other ≠ fname) :
    (fld.AddGradientDef fname gf).FindGradient other = fld.FindGradient other := by
  unfold FunctionLibraryDefinition.FindGradient FunctionLibraryDefinition.AddGradientDef
  simp only [List.find?_append]
  cases hf : fld.gradients.find? (fun p => p.1 = other) with
  | some p => simp
  | none =>
    have hne2 : ¬ fname = other := fun hc => hne hc.symm
    simp [List.find?, hne2]

lemma find?_replaceGradient (gradients : List (String × String))
    (fname gf key : String) :
    (gradients.map (fun p => if p.1 = fname then (fname, gf) else p)).find?
        (fun p => p.1 = key) =
      (gradients.find? (fun p => p.1 = key)).map
        (fun p => if p.1 = fname then (fname, gf) else p) := by
  induction gradients with
  | nil => simp
  | cons q rest ih =>
    simp only [List.map_cons]
    by_cases hq : q.1 = fname
    · rw [if_pos hq]
      by_cases hk : q.1 = key
      · have hfk : fname = key := by rw [← hq]; exact hk
        rw [List.find?_cons_of_pos _ (by simp [hfk]), List.find?_cons_of_pos _ (by simp [hk])]
        simp [hq]
      · have hfk : ¬ (fname = key) := by rw [← hq]; exact hk
        rw [List.find?_cons_of_neg _ (by simp [hfk]), List.find?_cons_of_neg _ (by simp [hk])]
        exact ih
    · rw [if_neg hq]
      by_cases hk : q.1 = key
      · rw [List.find?_cons_of_pos _ (by simp [hk]), List.find?_cons_of_pos _ (by simp [hk])]
        simp [hq]
      · rw [List.find?_cons_of_neg _ (by simp [hk]), List.find?_cons_of_neg _ (by simp [hk])]
        exact ih

lemma findGradient_replaceGradient_present {fld : FunctionLibraryDefinition}
    {fname orig : String} (gf : String)
    (hpres : fld.gradients.find? (fun p => p.1 = fname) = some (fname, orig)) :
    (fld.ReplaceGradient fname gf).FindGradient fname = gf := by
  unfold FunctionLibraryDefinition.FindGradient FunctionLibraryDefinition.ReplaceGradient
  rw [find?_replaceGradient, hpres]
  simp

lemma findGradient_replaceGradient_other {fld : FunctionLibraryDefinition}
    {fname other : String} (gf : String) (hne : other ≠ fname) :
    (fld.ReplaceGradient fname gf).FindGradient other = fld.FindGradient other := by
  unfold FunctionLibraryDefinition.FindGradient FunctionLibraryDefinition.ReplaceGradient
  rw [find?_replaceGradient]
  cases hf : fld.gradients.find? (fun p => p.1 = other) with
  | none => simp
  | some p =>
    have hk : p.1 = other := by simpa using List.find?_some hf
    have : ¬ p.1 = fname := by rw [hk]; exact hne
    simp [this]

lemma find?_key_eq {gradients : List (String × String)} {fname : String}
    {p : String × String}
    (h : gradients.find? (fun q => q.1 = fname) = some p) : p.1 = fname := by
  simpa using List.find?_some h

/-- Claim C7: for a node carrying a `SymbolicGradient` info whose
function-name attribute can be read, `RewriteAssociatedFunction` updates only
the library's gradient mapping for that function name — adding it when
absent, replacing it when different, leaving the library untouched when
identical — and never modifies the graph.  The hypothesis `hwf` is the
library representation invariant that registered gradient mappings name a
nonempty gradient function (the empty string encodes "absent" in
`FindGradient`, as in the C++ interface). -/
theorem rewriteAssociatedFunction_symbolic_gradient
    (g : Graph) (n : Nat) (fld : FunctionLibraryDefinition)
    (af : AssociatedFunctionInfo) (rewritten : String) (node : NodeDef)
    (fname : String) (fattr : AttrList)
    (hnode : g.FindNodeId n = some node)
    (htype : af.type_ = .kSymbolicGradient)
    (hattr : GetNodeAttrFunc node.attr kFuncAttr = .ok (fname, fattr))
    (hwf : ∀ p ∈ fld.gradients, p.2 ≠ "") :
    ∃ fld', RewriteAssociatedFunction g n fld af rewritten = .ok (g, fld') ∧
      fld'.funcs = fld.funcs ∧
      fld'.FindGradient fname = rewritten ∧
      (∀ other, other ≠ fname → fld'.FindGradient other = fld.FindGradient other) ∧
      (fld.FindGradient fname = rewritten → fld.FindGradient fname ≠ "" → fld' = fld) := by
  unfold RewriteAssociatedFunction
  simp only [hnode, htype, hattr]
  by_cases hempty : fld.FindGradient fname = ""
  · have habs : fld.gradients.find? (fun p => p.1 = fname) = none := by
      cases hf : fld.gradients.find? (fun p => p.1 = fname) with
      | none => rfl
      | some p =>
        exfalso
        apply hwf p (List.mem_of_find?_eq_some hf)
        have : fld.FindGradient fname = p.2 := by
          unfold FunctionLibraryDefinition.FindGradient
          rw [hf]
        rw [← this, hempty]
    refine ⟨fld.AddGradientDef fname rewritten, ?_, rfl, ?_, ?_, ?_⟩
    · rw [if_pos hempty]
    · exact findGradient_addGradientDef_absent rewritten habs
    · intro other hne
      exact findGradient_addGradientDef_other rewritten hne
    · intro _ hne
      exact absurd hempty hne
  · by_cases hdiff : fld.FindGradient fname = rewritten
    · refine ⟨fld, ?_, rfl, hdiff, fun other _ => rfl, fun _ _ => rfl⟩
      rw [if_neg hempty, if_neg (by rw [hdiff]; simp)]
    · obtain ⟨p, hp⟩ : ∃ p, fld.gradients.find? (fun q => q.1 = fname) = some p := by
        cases hf : fld.gradients.find? (fun q => q.1 = fname) with
        | none =>
          exfalso
          apply hempty
          unfold FunctionLibraryDefinition.FindGradient
          rw [hf]
        | some p => exact ⟨p, rfl⟩
      have hkey : p.1 = fname := find?_key_eq hp
      have hp' : fld.gradients.find? (fun q => q.1 = fname) = some (fname, p.2) := by
        rw [hp]
        cases p
        simp at hkey
        rw [hkey]
      refine ⟨fld.ReplaceGradient fname rewritten, ?_, rfl, ?_, ?_, ?_⟩
      · rw [if_neg hempty, if_pos hdiff]
      · exact findGradient_replaceGradient_present rewritten hp'
      · intro other hne
        exact findGradient_replaceGradient_other rewritten hne
      · intro hsame _
        exact absurd hsame hdiff

/-- Concrete node for the C7 witness: a `SymbolicGradient` op whose `"f"`
attribute names subroutine `"myfn"`. -/
def gradNode : NodeDef :=
  ⟨"n", "SymbolicGradient", [], [("f", .func "myfn" .nil)], ""⟩

/-- One-node graph holding `gradNode`. -/
def gradGraph : Graph := { nodes := [(0, gradNode)], edges := [], nextId := 1 }

/-- Witness for C7 at concrete inputs: rewriting the gradient of `"myfn"` to
`"mygrad"` on an empty library registers exactly that mapping and leaves the
graph alone. -/
theorem rewriteAssociatedFunction_symbolic_gradient_witness :
    (gradGraph.FindNodeId 0 = some gradNode ∧
      (AssociatedFunctionInfo.SymbolicGradient "SymbolicGradient" gradNode.attr).type_ =
        .kSymbolicGradient ∧
      GetNodeAttrFunc gradNode.attr kFuncAttr = .ok ("myfn", .nil) ∧
      (∀ p ∈ (⟨[], []⟩ : FunctionLibraryDefinition).gradients, p.2 ≠ "")) ∧
    ∃ fld', RewriteAssociatedFunction gradGraph 0 ⟨[], []⟩
        (AssociatedFunctionInfo.SymbolicGradient "SymbolicGradient" gradNode.attr)
        "mygrad" = .ok (gradGraph, fld') ∧
      fld'.funcs = (⟨[], []⟩ : FunctionLibraryDefinition).funcs ∧
      fld'.FindGradient "myfn" = "mygrad" ∧
      (∀ other, other ≠ "myfn" →
        fld'.FindGradient other =
          (⟨[], []⟩ : FunctionLibraryDefinition).FindGradient other) ∧
      ((⟨[], []⟩ : FunctionLibraryDefinition).FindGradient "myfn" = "mygrad" →
        (⟨[], []⟩ : FunctionLibraryDefinition).FindGradient "myfn" ≠ "" → fld' = ⟨[], []⟩) :=
  ⟨⟨by decide, rfl, rfl, by simp⟩,
    rewriteAssociatedFunction_symbolic_gradient gradGraph 0 ⟨[], []⟩
      (AssociatedFunctionInfo.SymbolicGradient "SymbolicGradient" gradNode.attr)
      "mygrad" gradNode "myfn" .nil (by decide) rfl rfl (by simp)⟩

/-! ### PruneGraphDefInto (source lines 199-262) -/

/-- Numeric value of a digit string. -/
def digitsVal (cs : List Char) : Nat :=
  cs.foldl (fun a c => a * 10 + (c.toNat - 48)) 0

/-- Modelled from the spec: `ParseTensorName` (the `tensor_id` collaborator).
A trailing `":<digits>"` with a nonempty name yields that slot, a leading
`"^"` yields the control slot `-1`, and a bare name yields slot `0`. -/
def ParseTensorName (s : String) : String × Int :=
  let rev := s.data.reverse
  let digits := rev.takeWhile (fun c => c.isDigit)
  let rest := rev.dropWhile (fun c => c.isDigit)
  if digits ≠ [] ∧ rest.head? = some ':' ∧ rest.tail ≠ [] then
    (⟨rest.tail.reverse⟩, Int.ofNat (digitsVal digits.reverse))
  else if s.data.head? = some '^' then
    (⟨s.data.tail⟩, -1)
  else (s, 0)

/-- The feed cut-point set: every declared feed's (node name, output slot)
pair (source lines 205-209). -/
def feedTensors (config : Config) : List (String × Int) :=
  config.feed.map (fun f => (f.id.node_name, f.id.output_index))

/-- The `node_by_name` lookup (source lines 212-215): the `unordered_map` is
written in node order, so for a duplicated name the last node wins. -/
def nodeByName (nodes : List NodeDef) (name : String) : Option NodeDef :=
  nodes.reverse.find? (fun nd => nd.name = name)

/-- The node names pushed for a visited node (source lines 238-250): each
input's parsed source node, except when that exact (name, slot) pair is a
declared feed tensor. -/
def childNames (feeds : List (String × Int)) (nd : NodeDef) : List String :=
  nd.input.filterMap (fun in_edge =>
    let id := ParseTensorName in_edge
    if (id.1, id.2) ∈ feeds then none else some id.1)

lemma nodeByName_mem {nodes : List NodeDef} {name : String} {nd : NodeDef}
    (h : nodeByName nodes name = some nd) : name ∈ nodes.map (fun x => x.name) := by
  unfold nodeByName at h
  have h1 := List.find?_some h
  have h2 := List.mem_of_find?_eq_some h
  simp at h1
  rw [List.mem_reverse] at h2
  exact h1 ▸ List.mem_map_of_mem _ h2

lemma visitedCard_dec {nodes : List NodeDef} {name : String} {visited : List String}
    (h1 : name ∈ nodes.map (fun x => x.name)) (h2 : name ∉ visited) :
    (((nodes.map (fun x => x.name)).toFinset \ (name :: visited).toFinset).card)
      < (((nodes.map (fun x => x.name)).toFinset \ visited.toFinset).card) := by
  rw [List.toFinset_cons, Finset.sdiff_insert]
  apply Finset.card_erase_lt_of_mem
  rw [Finset.mem_sdiff]
  exact ⟨List.mem_toFinset.mpr h1, fun hc => h2 (List.mem_toFinset.mp hc)⟩

/-- The traversal loop of `PruneGraphDefInto` (source lines 217-251):
breadth-first over node names, erroring on a missing name, skipping visited
names, and otherwise pushing the node's non-fed input names.  Returns the
visited set (the reachability marks of `node_by_name`). -/
def bfsPrune (nodes : List NodeDef) (feeds : List (String × Int)) :
    List String → List String → Except Error (List String)
  | [], visited => .ok visited
  | name :: queue, visited =>
    match hl : nodeByName nodes name with
    | none => .error ⟨.InvalidArgument,
        "While pruning graph, node " ++ name ++ " needed but not found in the graph."⟩
    | some nd =>
      if name ∈ visited then bfsPrune nodes feeds queue visited
      else bfsPrune nodes feeds (queue ++ childNames feeds nd) (name :: visited)
termination_by queue visited =>
  (((nodes.map (fun x => x.name)).toFinset \ visited.toFinset).card, queue.length)
decreasing_by
  · apply Prod.Lex.right
    simp
  · apply Prod.Lex.left
    exact visitedCard_dec (nodeByName_mem hl) (by assumption)

/-- `PruneGraphDefInto` (source lines 199-262): traverse from the fetch
names, then copy exactly the visited nodes in original order, carrying the
non-node fields over from the input (`*out = in`). -/
def PruneGraphDefInto (config : Config) (g : GraphDef) : Except Error GraphDef :=
  match bfsPrune g.node (feedTensors config)
      (config.fetch.map (fun f => f.id.node_name)) [] with
  | .error e => .error e
  | .ok visited =>
    .ok { g with node := g.node.filter (fun nd => nd.name ∈ visited) }

/-- Backward reachability from the fetch names along input edges, stopping at
feed cut-points: the set of node names the claim says the pruned graph keeps.
Cut-points are per (name, slot): an input edge is skipped only when its exact
(node name, output slot) pair is fed. -/
inductive Reach (nodes : List NodeDef) (feeds : List (String × Int))
    (fetches : List String) : String → Prop
  | fetch {name : String} : name ∈ fetches → Reach nodes feeds fetches name
  | step {m : String} {nd : NodeDef} {in_edge : String} :
      Reach nodes feeds fetches m →
      nodeByName nodes m = some nd →
      in_edge ∈ nd.input →
      ((ParseTensorName in_edge).1, (ParseTensorName in_edge).2) ∉ feeds →
      Reach nodes feeds fetches (ParseTensorName in_edge).1

lemma childNames_mem {feeds : List (String × Int)} {nd : NodeDef} {c : String} :
    c ∈ childNames feeds nd ↔
      ∃ in_edge ∈ nd.input,
        ((ParseTensorName in_edge).1, (ParseTensorName in_edge).2) ∉ feeds ∧
          (ParseTensorName in_edge).1 = c := by
  unfold childNames
  rw [List.mem_filterMap]
  constructor
  · rintro ⟨in_edge, hmem, hval⟩
    by_cases hf : ((ParseTensorName in_edge).1, (ParseTensorName in_edge).2) ∈ feeds
    · simp [hf] at hval
    · simp [hf] at hval
      exact ⟨in_edge, hmem, hf, hval⟩
  · rintro ⟨in_edge, hmem, hf, hval⟩
    refine ⟨in_edge, hmem, ?_⟩
    simp [hf]
    exact hval

lemma bfsPrune_nil (nodes : List NodeDef) (feeds : List (String × Int))
    (visited : List String) : bfsPrune nodes feeds [] visited = .ok visited := by
  rw [bfsPrune]

lemma bfsPrune_cons_none {nodes : List NodeDef} {feeds : List (String × Int)}
    {name : String} (queue visited : List String)
    (h : nodeByName nodes name = none) :
    bfsPrune nodes feeds (name :: queue) visited = .error ⟨.InvalidArgument,
      "While pruning graph, node " ++ name ++ " needed but not found in the graph."⟩ := by
  rw [bfsPrune]
  split
  · rfl
  · rename_i nd heq
    rw [h] at heq
    cases heq

lemma bfsPrune_cons_vis {nodes : List NodeDef} {feeds : List (String × Int)}
    {name : String} {nd : NodeDef} (queue visited : List String)
    (h : nodeByName nodes name = some nd) (hv : name ∈ visited) :
    bfsPrune nodes feeds (name :: queue) visited = bfsPrune nodes feeds queue visited := by
  rw [bfsPrune]
  split
  · rename_i heq
    rw [h] at heq
    cases heq
  · rename_i nd' heq
    rw [h] at heq
    cases heq
    rw [if_pos hv]

lemma bfsPrune_cons_new {nodes : List NodeDef} {feeds : List (String × Int)}
    {name : String} {nd : NodeDef} (queue visited : List String)
    (h : nodeByName nodes name = some nd) (hv : name ∉ visited) :
    bfsPrune nodes feeds (name :: queue) visited =
      bfsPrune nodes feeds (queue ++ childNames feeds nd) (name :: visited) := by
  rw [bfsPrune]
  split
  · rename_i heq
    rw [h] at heq
    cases heq
  · rename_i nd' heq
    rw [h] at heq
    cases heq
    rw [if_neg hv]

lemma bfsPrune_sound (nodes : List NodeDef) (feeds : List (String × Int))
    (fetches : List String) :
    ∀ queue visited V,
      bfsPrune nodes feeds queue visited = .ok V →
      (∀ q ∈ queue, Reach nodes feeds fetches q) →
      (∀ v ∈ visited, Reach nodes feeds fetches v) →
      ∀ x ∈ V, Reach nodes feeds fetches x := by
  intro queue visited
  induction queue, visited using bfsPrune.induct nodes feeds with
  | case1 visited =>
    intro V h hq hv
    rw [bfsPrune_nil] at h
    cases h
    exact hv
  | case2 name queue visited hl =>
    intro V h hq hv
    rw [bfsPrune_cons_none queue visited hl] at h
    cases h
  | case3 name queue visited nd hl hmem ih =>
    intro V h hq hv
    rw [bfsPrune_cons_vis queue visited hl hmem] at h
    exact ih V h (fun q hq2 => hq q (List.mem_cons_of_mem _ hq2)) hv
  | case4 name queue visited nd hl hmem ih =>
    intro V h hq hv
    rw [bfsPrune_cons_new queue visited hl hmem] at h
    have hname : Reach nodes feeds fetches name := hq name (List.mem_cons_self _ _)
    apply ih V h
    · intro q hq2
      rcases List.mem_append.mp hq2 with h2 | h2
      · exact hq q (List.mem_cons_of_mem _ h2)
      · rcases childNames_mem.mp h2 with ⟨in_edge, hin, hf, hval⟩
        rw [← hval]
        exact Reach.step hname hl hin hf
    · intro v hv2
      rcases List.mem_cons.mp hv2 with h2 | h2
      · cases h2; exact hname
      · exact hv v h2

lemma bfsPrune_mono (nodes : List NodeDef) (feeds : List (String × Int)) :
    ∀ queue visited V,
      bfsPrune nodes feeds queue visited = .ok V →
      (∀ v ∈ visited, v ∈ V) ∧ (∀ q ∈ queue, q ∈ V) := by
  intro queue visited
  induction queue, visited using bfsPrune.induct nodes feeds with
  | case1 visited =>
    intro V h
    rw [bfsPrune_nil] at h
    cases h
    exact ⟨fun v hv => hv, fun q hq => by cases hq⟩
  | case2 name queue visited hl =>
    intro V h
    rw [bfsPrune_cons_none queue visited hl] at h
    cases h
  | case3 name queue visited nd hl hmem ih =>
    intro V h
    rw [bfsPrune_cons_vis queue visited hl hmem] at h
    obtain ⟨h1, h2⟩ := ih V h
    refine ⟨h1, ?_⟩
    intro q hq
    rcases List.mem_cons.mp hq with e | e
    · exact e ▸ h1 name hmem
    · exact h2 q e
  | case4 name queue visited nd hl hmem ih =>
    intro V h
    rw [bfsPrune_cons_new queue visited hl hmem] at h
    obtain ⟨h1, h2⟩ := ih V h
    refine ⟨fun v hv => h1 v (List.mem_cons_of_mem _ hv), ?_⟩
    intro q hq
    rcases List.mem_cons.mp hq with e | e
    · exact e ▸ h1 name (List.mem_cons_self _ _)
    · exact h2 q (List.mem_append_left _ e)

lemma bfsPrune_closed (nodes : List NodeDef) (feeds : List (String × Int)) :
    ∀ queue visited V,
      bfsPrune nodes feeds queue visited = .ok V →
      (∀ v ∈ visited, ∀ nd, nodeByName nodes v = some nd →
        ∀ c ∈ childNames feeds nd, c ∈ visited ∨ c ∈ queue) →
      ∀ v ∈ V, ∀ nd, nodeByName nodes v = some nd →
        ∀ c ∈ childNames feeds nd, c ∈ V := by
  intro queue visited
  induction queue, visited using bfsPrune.induct nodes feeds with
  | case1 visited =>
    intro V h hinv
    rw [bfsPrune_nil] at h
    cases h
    intro v hv nd hnd c hc
    rcases hinv v hv nd hnd c hc with h2 | h2
    · exact h2
    · cases h2
  | case2 name queue visited hl =>
    intro V h hinv
    rw [bfsPrune_cons_none queue visited hl] at h
    cases h
  | case3 name queue visited nd hl hmem ih =>
    intro V h hinv
    rw [bfsPrune_cons_vis queue visited hl hmem] at h
    apply ih V h
    intro v hv nd' hnd' c hc
    rcases hinv v hv nd' hnd' c hc with h2 | h2
    · exact Or.inl h2
    · rcases List.mem_cons.mp h2 with e | e
      · exact Or.inl (e ▸ hmem)
      · exact Or.inr e
  | case4 name queue visited nd hl hmem ih =>
    intro V h hinv
    rw [bfsPrune_cons_new queue visited hl hmem] at h
    apply ih V h
    intro v hv nd' hnd' c hc
    rcases List.mem_cons.mp hv with e | e
    · subst e
      rw [hl] at hnd'
      cases hnd'
      exact Or.inr (List.mem_append_right _ hc)
    · rcases hinv v e nd' hnd' c hc with h2 | h2
      · exact Or.inl (List.mem_cons_of_mem _ h2)
      · rcases List.mem_cons.mp h2 with e2 | e2
        · exact Or.inl (e2 ▸ List.mem_cons_self _ _)
        · exact Or.inr (List.mem_append_left _ e2)

lemma bfsPrune_dom (nodes : List NodeDef) (feeds : List (String × Int)) :
    ∀ queue visited V,
      bfsPrune nodes feeds queue visited = .ok V →
      (∀ v ∈ visited, nodeByName nodes v ≠ none) →
      ∀ x ∈ V, nodeByName nodes x ≠ none := by
  intro queue visited
  induction queue, visited using bfsPrune.induct nodes feeds with
  | case1 visited =>
    intro V h hinv
    rw [bfsPrune_nil] at h
    cases h
    exact hinv
  | case2 name queue visited hl =>
    intro V h hinv
    rw [bfsPrune_cons_none queue visited hl] at h
    cases h
  | case3 name queue visited nd hl hmem ih =>
    intro V h hinv
    rw [bfsPrune_cons_vis queue visited hl hmem] at h
    exact ih V h hinv
  | case4 name queue visited nd hl hmem ih =>
    intro V h hinv
    rw [bfsPrune_cons_new queue visited hl hmem] at h
    apply ih V h
    intro v hv
    rcases List.mem_cons.mp hv with e | e
    · subst e
      rw [hl]
      intro hc
      cases hc
    · exact hinv v e

lemma bfsPrune_success (nodes : List NodeDef) (feeds : List (String × Int))
    (fetches : List String) :
    ∀ queue visited,
      (∀ x, Reach nodes feeds fetches x → nodeByName nodes x ≠ none) →
      (∀ q ∈ queue, Reach nodes feeds fetches q) →
      ∃ V, bfsPrune nodes feeds queue visited = .ok V := by
  intro queue visited
  induction queue, visited using bfsPrune.induct nodes feeds with
  | case1 visited =>
    intro _ _
    exact ⟨visited, bfsPrune_nil nodes feeds visited⟩
  | case2 name queue visited hl =>
    intro hdom hq
    exact absurd hl (hdom name (hq name (List.mem_cons_self _ _)))
  | case3 name queue visited nd hl hmem ih =>
    intro hdom hq
    obtain ⟨V, hV⟩ := ih hdom (fun q h => hq q (List.mem_cons_of_mem _ h))
    refine ⟨V, ?_⟩
    rw [bfsPrune_cons_vis queue visited hl hmem]
    exact hV
  | case4 name queue visited nd hl hmem ih =>
    intro hdom hq
    have hname : Reach nodes feeds fetches name := hq name (List.mem_cons_self _ _)
    have hq2 : ∀ q ∈ queue ++ childNames feeds nd, Reach nodes feeds fetches q := by
      intro q hq2
      rcases List.mem_append.mp hq2 with h2 | h2
      · exact hq q (List.mem_cons_of_mem _ h2)
      · rcases childNames_mem.mp h2 with ⟨in_edge, hin, hf, hval⟩
        rw [← hval]
        exact Reach.step hname hl hin hf
    obtain ⟨V, hV⟩ := ih hdom hq2
    refine ⟨V, ?_⟩
    rw [bfsPrune_cons_new queue visited hl hmem]
    exact hV

lemma bfsPrune_complete (nodes : List NodeDef) (feeds : List (String × Int))
    (fetches : List String) (V : List String)
    (h : bfsPrune nodes feeds fetches [] = .ok V) :
    ∀ x, Reach nodes feeds fetches x → x ∈ V := by
  intro x hx
  induction hx with
  | fetch hmem => exact (bfsPrune_mono nodes feeds fetches [] V h).2 _ hmem
  | step hr hnd hin hf ih =>
    have hclosed := bfsPrune_closed nodes feeds fetches [] V h
      (by intro v hv; cases hv)
    exact hclosed _ ih _ hnd _ (childNames_mem.mpr ⟨_, hin, hf, rfl⟩)

/-- Claim C1: whenever pruning succeeds, the output graph contains exactly
the nodes that are a fetch target or backward-reachable from one along input
edges without crossing a per-(name, slot) feed cut-point, and the retained
nodes keep the input graph's relative order (the output node list is a
sublist of the input's, not a discovery-order list). -/
theorem pruneGraphDefInto_reachability (config : Config) (g out : GraphDef)
    (h : PruneGraphDefInto config g = .ok out) :
    (∀ nd, nd ∈ out.node ↔ nd ∈ g.node ∧
      Reach g.node (feedTensors config)
        (config.fetch.map (fun f => f.id.node_name)) nd.name) ∧
    out.node.Sublist g.node := by
  unfold PruneGraphDefInto at h
  cases hb : bfsPrune g.node (feedTensors config)
      (config.fetch.map (fun f => f.id.node_name)) [] with
  | error e =>
    rw [hb] at h
    cases h
  | ok V =>
    rw [hb] at h
    cases h
    constructor
    · intro nd
      simp only [List.mem_filter, decide_eq_true_eq]
      constructor
      · rintro ⟨h1, h2⟩
        refine ⟨h1, ?_⟩
        exact bfsPrune_sound g.node (feedTensors config)
          (config.fetch.map (fun f => f.id.node_name))
          (config.fetch.map (fun f => f.id.node_name)) [] V hb
          (fun q hq => Reach.fetch hq)
          (fun v hv => absurd hv (List.not_mem_nil v))
          nd.name h2
      · rintro ⟨h1, h2⟩
        exact ⟨h1, bfsPrune_complete g.node (feedTensors config)
          (config.fetch.map (fun f => f.id.node_name)) V hb nd.name h2⟩
    · exact List.filter_sublist _

/-- Fetch-only config used by the pruning witnesses: fetch `"C":0`, no feeds. -/
def pruneCfg : Config := ⟨[], [⟨⟨"C", 0⟩, ""⟩]⟩

/-- Input graph for the pruning witnesses: a fetched node `C` and an
unrelated node `D`. -/
def pruneG : GraphDef := ⟨[⟨"C", "op", [], [], ""⟩, ⟨"D", "op", [], [], ""⟩], 7⟩

/-- Pruned output for the pruning witnesses: only `C` survives. -/
def pruneOut : GraphDef := ⟨[⟨"C", "op", [], [], ""⟩], 7⟩

lemma prune_witness_eval : PruneGraphDefInto pruneCfg pruneG = .ok pruneOut := by
  have hbfs : bfsPrune pruneG.node (feedTensors pruneCfg) ["C"] [] = .ok ["C"] := by
    rw [bfsPrune_cons_new [] []
      (show nodeByName pruneG.node "C" = some ⟨"C", "op", [], [], ""⟩ from rfl)
      (by simp)]
    exact bfsPrune_nil _ _ _
  unfold PruneGraphDefInto
  rw [show (pruneCfg.fetch.map (fun f => f.id.node_name)) = ["C"] from rfl, hbfs]
  rfl

/-- Witness for C1 at a concrete config and graph. -/
theorem pruneGraphDefInto_reachability_witness :
    PruneGraphDefInto pruneCfg pruneG = .ok pruneOut ∧
    ((∀ nd, nd ∈ pruneOut.node ↔ nd ∈ pruneG.node ∧
      Reach pruneG.node (feedTensors pruneCfg)
        (pruneCfg.fetch.map (fun f => f.id.node_name)) nd.name) ∧
      pruneOut.node.Sublist pruneG.node) :=
  ⟨prune_witness_eval,
    pruneGraphDefInto_reachability pruneCfg pruneG pruneOut prune_witness_eval⟩

lemma find?_name_filter (V : List String) (name : String) :
    ∀ l : List NodeDef,
      (l.filter (fun nd => nd.name ∈ V)).find? (fun nd => nd.name = name) =
        if name ∈ V then l.find? (fun nd => nd.name = name) else none := by
  intro l
  induction l with
  | nil => simp
  | cons nd rest ih =>
    by_cases hq : nd.name = name
    · by_cases hv : name ∈ V
      · rw [List.filter_cons_of_pos (by simp [hq, hv]),
          List.find?_cons_of_pos _ (by simp [hq]), if_pos hv,
          List.find?_cons_of_pos _ (by simp [hq])]
      · rw [List.filter_cons_of_neg (by simp [hq, hv]), ih, if_neg hv, if_neg hv]
    · by_cases hp : nd.name ∈ V
      · rw [List.filter_cons_of_pos (by simp [hp]),
          List.find?_cons_of_neg _ (by simp [hq]), ih]
        by_cases hv : name ∈ V
        · rw [if_pos hv, if_pos hv, List.find?_cons_of_neg _ (by simp [hq])]
        · rw [if_neg hv, if_neg hv]
      · rw [List.filter_cons_of_neg (by simp [hp]), ih]
        by_cases hv : name ∈ V
        · rw [if_pos hv, if_pos hv, List.find?_cons_of_neg _ (by simp [hq])]
        · rw [if_neg hv, if_neg hv]

lemma nodeByName_filter (nodes : List NodeDef) (V : List String) (name : String) :
    nodeByName (nodes.filter (fun nd => nd.name ∈ V)) name =
      if name ∈ V then nodeByName nodes name else none := by
  unfold nodeByName
  rw [← List.filter_reverse, find?_name_filter]

lemma reach_filter_iff (nodes : List NodeDef) (feeds : List (String × Int))
    (fetches : List String) (V : List String)
    (hVR : ∀ x, x ∈ V ↔ Reach nodes feeds fetches x) (x : String) :
    Reach (nodes.filter (fun nd => nd.name ∈ V)) feeds fetches x ↔
      Reach nodes feeds fetches x := by
  constructor
  · intro hx
    induction hx with
    | fetch hm => exact Reach.fetch hm
    | @step m nd in_edge hr hnd hin hf ih =>
      rw [nodeByName_filter] at hnd
      by_cases hv : m ∈ V
      · rw [if_pos hv] at hnd
        exact Reach.step ih hnd hin hf
      · rw [if_neg hv] at hnd
        cases hnd
  · intro hx
    induction hx with
    | fetch hm => exact Reach.fetch hm
    | @step m nd in_edge hr hnd hin hf ih =>
      have hv : m ∈ V := (hVR m).mpr hr
      refine Reach.step ih ?_ hin hf
      rw [nodeByName_filter, if_pos hv]
      exact hnd

/-- Claim C6: pruning is idempotent — pruning a successfully pruned graph
again with the same config succeeds and returns that graph unchanged (same
node set, same order, same carried fields). -/
theorem pruneGraphDefInto_idempotent (config : Config) (g out : GraphDef)
    (h : PruneGraphDefInto config g = .ok out) :
    PruneGraphDefInto config out = .ok out := by
  unfold PruneGraphDefInto at h
  cases hb : bfsPrune g.node (feedTensors config)
      (config.fetch.map (fun f => f.id.node_name)) [] with
  | error e =>
    rw [hb] at h
    cases h
  | ok V =>
    rw [hb] at h
    cases h
    have hVR : ∀ x, x ∈ V ↔
        Reach g.node (feedTensors config)
          (config.fetch.map (fun f => f.id.node_name)) x := by
      intro x
      constructor
      · intro hx
        exact bfsPrune_sound g.node (feedTensors config)
          (config.fetch.map (fun f => f.id.node_name))
          (config.fetch.map (fun f => f.id.node_name)) [] V hb
          (fun q hq => Reach.fetch hq)
          (fun v hv => absurd hv (List.not_mem_nil v)) x hx
      · exact bfsPrune_complete g.node (feedTensors config)
          (config.fetch.map (fun f => f.id.node_name)) V hb x
    have hdom : ∀ x ∈ V, nodeByName g.node x ≠ none :=
      bfsPrune_dom g.node (feedTensors config)
        (config.fetch.map (fun f => f.id.node_name)) [] V hb
        (fun v hv => absurd hv (List.not_mem_nil v))
    have hdom2 : ∀ x, Reach (g.node.filter (fun nd => nd.name ∈ V))
        (feedTensors config) (config.fetch.map (fun f => f.id.node_name)) x →
        nodeByName (g.node.filter (fun nd => nd.name ∈ V)) x ≠ none := by
      intro x hx
      have hx1 := (reach_filter_iff g.node (feedTensors config)
        (config.fetch.map (fun f => f.id.node_name)) V hVR x).mp hx
      have hv : x ∈ V := (hVR x).mpr hx1
      rw [nodeByName_filter, if_pos hv]
      exact hdom x hv
    obtain ⟨V2, hV2⟩ := bfsPrune_success (g.node.filter (fun nd => nd.name ∈ V))
      (feedTensors config) (config.fetch.map (fun f => f.id.node_name))
      (config.fetch.map (fun f => f.id.node_name)) []
      hdom2 (fun q hq => Reach.fetch hq)
    have hfilter : (g.node.filter (fun nd => nd.name ∈ V)).filter
        (fun nd => nd.name ∈ V2) = g.node.filter (fun nd => nd.name ∈ V) := by
      apply List.filter_eq_self.mpr
      intro nd hnd
      have hv : nd.name ∈ V := by
        have := List.of_mem_filter hnd
        simpa using this
      have hr1 := (hVR nd.name).mp hv
      have hr2 := (reach_filter_iff g.node (feedTensors config)
        (config.fetch.map (fun f => f.id.node_name)) V hVR nd.name).mpr hr1
      have hv2 : nd.name ∈ V2 :=
        bfsPrune_complete (g.node.filter (fun nd => nd.name ∈ V))
          (feedTensors config) (config.fetch.map (fun f => f.id.node_name))
          V2 hV2 nd.name hr2
      simpa using hv2
    unfold PruneGraphDefInto
    rw [hV2]
    show Except.ok _ = _
    rw [hfilter]

/-- Witness for C6 at a concrete config and graph. -/
theorem pruneGraphDefInto_idempotent_witness :
    PruneGraphDefInto pruneCfg pruneG = .ok pruneOut ∧
    PruneGraphDefInto pruneCfg pruneOut = .ok pruneOut :=
  ⟨prune_witness_eval,
    pruneGraphDefInto_idempotent pruneCfg pruneG pruneOut prune_witness_eval⟩

/-! ### AddPlaceholdersForFeeds (source lines 102-197) -/

/-- The per-feed record held in the `std::map` of `AddPlaceholdersForFeeds`
(source lines 105-109): the owning feed, the derived placeholder name, and
the resolved data type (`0` = `DT_INVALID` until resolved). -/
structure PlaceholderInfo where
  feed : Feed
  placeholder_name : String
  data_type : Nat
deriving DecidableEq, Repr

/-- The deterministic placeholder name (source lines 119-120):
`"aot_feed_<slot>/<node name>"`. -/
def phName (feed : Feed) : String :=
  "aot_feed_" ++ toString feed.id.output_index ++ "/" ++ feed.id.node_name

/-- `placeholder_info[name_port] = info`: insertion into the key-sorted
`std::map`, overwriting the record when the key is already present (the
later feed wins, source lines 114-122). -/
def insertPlaceholderInfo : List (String × PlaceholderInfo) → String →
    PlaceholderInfo → List (String × PlaceholderInfo)
  | [], key, info => [(key, info)]
  | (k, i) :: rest, key, info =>
    if strLt key k then (key, info) :: (k, i) :: rest
    else if key = k then (key, info) :: rest
    else (k, i) :: insertPlaceholderInfo rest key info

/-- The first loop of `AddPlaceholdersForFeeds` (source lines 114-122),
building the key-sorted `placeholder_info` map. -/
def buildPlaceholderInfo (feeds : List Feed) : List (String × PlaceholderInfo) :=
  feeds.foldl
    (fun acc feed =>
      insertPlaceholderInfo acc (TensorIdToString feed.id) ⟨feed, phName feed, 0⟩)
    []

/-- `(*feed_remapping)[name_port] = placeholder_name`: `unordered_map`
assignment, replacing the value of an existing key in place. -/
def updateAssoc : List (String × String) → String → String → List (String × String)
  | [], k, v => [(k, v)]
  | (k0, v0) :: rest, k, v =>
    if k0 = k then (k, v) :: rest else (k0, v0) :: updateAssoc rest k v

/-- The `feed_remapping` output built alongside `placeholder_info`
(source line 121). -/
def buildFeedRemapping (feeds : List Feed) : List (String × String) :=
  feeds.foldl
    (fun acc feed => updateAssoc acc (TensorIdToString feed.id) (phName feed))
    []

/-- Key lookup in the remapping. -/
def lookupAssoc (l : List (String × String)) (k : String) : Option String :=
  (l.find? (fun p => p.1 = k)).map (fun p => p.2)

/-- Modelled from the spec: the op-registry collaborator's knowledge of a
node op — its declared output types, used by the throwaway-node type
inference of source lines 143-167. -/
structure OpInfo where
  output_types : List Nat
deriving DecidableEq, Repr

/-- The verification and type-resolution step for one feed group (source
lines 129-168): the referenced node must exist (`NotFound` otherwise, even
when the feed declares an explicit type); an explicit feed type wins;
otherwise the type is inferred from the registry entry for the node's op,
with `InvalidArgument` when the slot is out of range.  The registry lookup
and output-type query stand in for the external
`AddDefaultAttrsToGraphDef` / `Graph::AddNode` / `output_type` machinery,
modelled from the spec. -/
def resolvePlaceholderType (reg : List (String × OpInfo)) (g : GraphDef)
    (info : PlaceholderInfo) : Except Error Nat :=
  match nodeByName g.node info.feed.id.node_name with
  | none =>
    .error ⟨.NotFound, "Can't find feed node: " ++ TensorIdToString info.feed.id⟩
  | some existing =>
    if info.feed.type_ ≠ 0 then .ok info.feed.type_
    else
      match reg.find? (fun p => p.1 = existing.op) with
      | none => .error ⟨.NotFound, "Op type not registered: " ++ existing.op⟩
      | some p =>
        if info.feed.id.output_index < (p.2.output_types.length : Int) then
          .ok (p.2.output_types.getD info.feed.id.output_index.toNat 0)
        else
          .error ⟨.InvalidArgument,
            "Invalid output_index " ++ toString info.feed.id.output_index
              ++ " for feed node " ++ info.feed.id.node_name⟩

/-- The verification loop over the sorted groups (source lines 129-169),
recording each group's resolved data type and stopping at the first
failure. -/
def resolveAll (reg : List (String × OpInfo)) (g : GraphDef) :
    List (String × PlaceholderInfo) → Except Error (List (String × PlaceholderInfo))
  | [] => .ok []
  | (k, info) :: rest =>
    match resolvePlaceholderType reg g info with
    | .error e => .error e
    | .ok dt =>
      match resolveAll reg g rest with
      | .error e => .error e
      | .ok rest' => .ok ((k, { info with data_type := dt }) :: rest')

/-- One synthesized placeholder node (source lines 174-182). -/
def placeholderNode (info : PlaceholderInfo) : NodeDef :=
  { name := info.placeholder_name, op := "PlaceholderV2", input := [],
    attr := [("dtype", .typ info.data_type), ("shape", .shape info.feed.shape)],
    device := "" }

/-- Modelled from the spec: `TensorId::ToString` — `"^name"` for the control
slot, `"name:slot"` otherwise. -/
def tensorPairString (p : String × Int) : String :=
  if p.2 = -1 then "^" ++ p.1 else p.1 ++ ":" ++ toString p.2

/-- The input-rewrite step for one node (source lines 185-194): any input
whose parsed tensor id prints as a fed key is repointed at that group's
placeholder (implicitly at slot 0); everything else, control inputs
included, is untouched. -/
def rewriteInputs (pinfo : List (String × PlaceholderInfo)) (nd : NodeDef) : NodeDef :=
  { nd with input := nd.input.map (fun in_edge =>
      match pinfo.find? (fun p => p.1 = tensorPairString (ParseTensorName in_edge)) with
      | some p => p.2.placeholder_name
      | none => in_edge) }

/-- `AddPlaceholdersForFeeds` (source lines 102-197): group the feeds by
canonical tensor string into a sorted map, verify nodes and resolve types,
append one placeholder per group, and rewrite every node's matching inputs
(the appended placeholders included, as in the source loop over the grown
graph). -/
def AddPlaceholdersForFeeds (config : Config) (reg : List (String × OpInfo))
    (g : GraphDef) : Except Error (List (String × String) × GraphDef) :=
  match resolveAll reg g (buildPlaceholderInfo config.feed) with
  | .error e => .error e
  | .ok pinfo =>
    let g1 : GraphDef :=
      { g with node := g.node ++ pinfo.map (fun kv => placeholderNode kv.2) }
    let g2 : GraphDef := { g1 with node := g1.node.map (rewriteInputs pinfo) }
    .ok (buildFeedRemapping config.feed, g2)

/-- Key-sortedness of the embedded `std::map`: strictly ascending byte-wise
keys. -/
def piSorted (l : List (String × PlaceholderInfo)) : Prop :=
  l.Pairwise (fun a b => strLt a.1 b.1 = true)

lemma strLt_total {a b : String} (h1 : ¬ strLt a b = true) (h2 : a ≠ b) :
    strLt b a = true := by
  cases hab : strLt a b with
  | true => exact absurd hab h1
  | false =>
    cases hba : strLt b a with
    | true => rfl
    | false => exact absurd (strLt_antisymm hab hba) h2

lemma mem_insertPlaceholderInfo {l : List (String × PlaceholderInfo)}
    {key : String} {info : PlaceholderInfo} {b : String × PlaceholderInfo}
    (hb : b ∈ insertPlaceholderInfo l key info) : b = (key, info) ∨ b ∈ l := by
  induction l with
  | nil =>
    simp [insertPlaceholderInfo] at hb
    exact Or.inl hb
  | cons p rest ih =>
    obtain ⟨k, i⟩ := p
    unfold insertPlaceholderInfo at hb
    by_cases h1 : strLt key k = true
    · rw [if_pos h1] at hb
      exact List.mem_cons.mp hb
    · rw [if_neg h1] at hb
      by_cases h2 : key = k
      · rw [if_pos h2] at hb
        rcases List.mem_cons.mp hb with e | e
        · exact Or.inl e
        · exact Or.inr (List.mem_cons_of_mem _ e)
      · rw [if_neg h2] at hb
        rcases List.mem_cons.mp hb with e | e
        · exact Or.inr (e ▸ List.mem_cons_self _ _)
        · rcases ih e with e2 | e2
          · exact Or.inl e2
          · exact Or.inr (List.mem_cons_of_mem _ e2)

lemma piSorted_insert {l : List (String × PlaceholderInfo)} {key : String}
    {info : PlaceholderInfo} (hs : piSorted l) :
    piSorted (insertPlaceholderInfo l key info) := by
  induction l with
  | nil =>
    unfold insertPlaceholderInfo piSorted
    simp
  | cons p rest ih =>
    obtain ⟨k, i⟩ := p
    obtain ⟨hhead, hrest⟩ := List.pairwise_cons.mp hs
    unfold insertPlaceholderInfo
    by_cases h1 : strLt key k = true
    · rw [if_pos h1]
      apply List.Pairwise.cons _ hs
      intro b hb
      rcases List.mem_cons.mp hb with e | e
      · rw [e]
        exact h1
      · exact strLt_trans h1 (hhead b e)
    · rw [if_neg h1]
      by_cases h2 : key = k
      · rw [if_pos h2]
        apply List.Pairwise.cons _ hrest
        intro b hb
        rw [h2]
        exact hhead b hb
      · rw [if_neg h2]
        apply List.Pairwise.cons _ (ih hrest)
        intro b hb
        rcases mem_insertPlaceholderInfo hb with e | e
        · rw [e]
          exact strLt_total h1 h2
        · exact hhead b e

lemma find?_insertPlaceholderInfo (l : List (String × PlaceholderInfo))
    (key : String) (info : PlaceholderInfo) (query : String) :
    (insertPlaceholderInfo l key info).find? (fun p => p.1 = query) =
      if key = query then some (key, info)
      else l.find? (fun p => p.1 = query) := by
  induction l with
  | nil =>
    unfold insertPlaceholderInfo
    by_cases h : key = query <;> simp [List.find?, h]
  | cons p rest ih =>
    obtain ⟨k, i⟩ := p
    unfold insertPlaceholderInfo
    by_cases h1 : strLt key k = true
    · rw [if_pos h1]
      by_cases h : key = query
      · rw [List.find?_cons_of_pos _ (by simp [h]), if_pos h]
      · rw [List.find?_cons_of_neg _ (by simp [h]), if_neg h]
    · rw [if_neg h1]
      by_cases h2 : key = k
      · rw [if_pos h2]
        by_cases h : key = query
        · rw [List.find?_cons_of_pos _ (by simp [h]), if_pos h]
        · have hkq : ¬ (k = query) := by
            rw [← h2]
            exact h
          rw [List.find?_cons_of_neg _ (by simp [h]), if_neg h,
            List.find?_cons_of_neg _ (by simp [hkq])]
      · rw [if_neg h2]
        by_cases hk : k = query
        · have hnq : ¬ key = query := by
            rw [← hk]
            exact h2
          rw [List.find?_cons_of_pos _ (by simp [hk]), if_neg hnq,
            List.find?_cons_of_pos _ (by simp [hk])]
        · rw [List.find?_cons_of_neg _ (by simp [hk]), ih]
          by_cases h : key = query
          · rw [if_pos h, if_pos h]
          · rw [if_neg h, if_neg h, List.find?_cons_of_neg _ (by simp [hk])]

lemma lookupAssoc_cons (a b : String) (rest : List (String × String)) (query : String) :
    lookupAssoc ((a, b) :: rest) query =
      if a = query then some b else lookupAssoc rest query := by
  unfold lookupAssoc
  by_cases h : a = query
  · rw [List.find?_cons_of_pos _ (by simp [h]), if_pos h]
    rfl
  · rw [List.find?_cons_of_neg _ (by simp [h]), if_neg h]

lemma lookupAssoc_updateAssoc (l : List (String × String)) (k v query : String) :
    lookupAssoc (updateAssoc l k v) query =
      if k = query then some v else lookupAssoc l query := by
  induction l with
  | nil =>
    unfold updateAssoc
    rw [lookupAssoc_cons]
  | cons p rest ih =>
    obtain ⟨k0, v0⟩ := p
    unfold updateAssoc
    by_cases h0 : k0 = k
    · rw [if_pos h0, lookupAssoc_cons, lookupAssoc_cons]
      by_cases h : k = query
      · rw [if_pos h, if_pos h]
      · have : ¬ k0 = query := by
          rw [h0]
          exact h
        rw [if_neg h, if_neg h, if_neg this]
    · rw [if_neg h0, lookupAssoc_cons, lookupAssoc_cons, ih]
      by_cases hq : k0 = query
      · have : ¬ k = query := by
          rw [← hq]
          intro hc
          exact h0 hc.symm
        rw [if_pos hq, if_neg this, if_pos hq]
      · rw [if_neg hq, if_neg hq]

lemma buildPlaceholderInfo_invariant :
    ∀ (feeds : List Feed) (accPi : List (String × PlaceholderInfo))
      (accRm : List (String × String)),
      piSorted accPi →
      (∀ kv ∈ accPi, kv.2.placeholder_name = phName kv.2.feed ∧
        kv.1 = TensorIdToString kv.2.feed.id) →
      (∀ k, lookupAssoc accRm k =
        (accPi.find? (fun p => p.1 = k)).map (fun p => p.2.placeholder_name)) →
      piSorted (feeds.foldl (fun acc feed =>
        insertPlaceholderInfo acc (TensorIdToString feed.id)
          ⟨feed, phName feed, 0⟩) accPi) ∧
      (∀ kv ∈ feeds.foldl (fun acc feed =>
          insertPlaceholderInfo acc (TensorIdToString feed.id)
            ⟨feed, phName feed, 0⟩) accPi,
        kv.2.placeholder_name = phName kv.2.feed ∧
        kv.1 = TensorIdToString kv.2.feed.id) ∧
      (∀ k, lookupAssoc (feeds.foldl (fun acc feed =>
          updateAssoc acc (TensorIdToString feed.id) (phName feed)) accRm) k =
        ((feeds.foldl (fun acc feed =>
          insertPlaceholderInfo acc (TensorIdToString feed.id)
            ⟨feed, phName feed, 0⟩) accPi).find? (fun p => p.1 = k)).map
          (fun p => p.2.placeholder_name)) := by
  intro feeds
  induction feeds with
  | nil =>
    intro accPi accRm hs hinv hlk
    exact ⟨hs, hinv, hlk⟩
  | cons feed rest ih =>
    intro accPi accRm hs hinv hlk
    simp only [List.foldl_cons]
    apply ih
    · exact piSorted_insert hs
    · intro kv hkv
      rcases mem_insertPlaceholderInfo hkv with e | e
      · rw [e]
        exact ⟨rfl, rfl⟩
      · exact hinv kv e
    · intro k
      rw [lookupAssoc_updateAssoc, find?_insertPlaceholderInfo]
      by_cases h : TensorIdToString feed.id = k
      · rw [if_pos h, if_pos h]
        rfl
      · rw [if_neg h, if_neg h]
        exact hlk k

lemma resolveAll_shape (reg : List (String × OpInfo)) (g : GraphDef) :
    ∀ (l l' : List (String × PlaceholderInfo)), resolveAll reg g l = .ok l' →
      l'.map (fun kv => (kv.1, kv.2.placeholder_name)) =
        l.map (fun kv => (kv.1, kv.2.placeholder_name)) := by
  intro l
  induction l with
  | nil =>
    intro l' h
    unfold resolveAll at h
    cases h
    rfl
  | cons p rest ih =>
    intro l' h
    obtain ⟨k, info⟩ := p
    unfold resolveAll at h
    cases h1 : resolvePlaceholderType reg g info with
    | error e =>
      rw [h1] at h
      cases h
    | ok dt =>
      rw [h1] at h
      cases h2 : resolveAll reg g rest with
      | error e =>
        rw [h2] at h
        cases h
      | ok rest' =>
        rw [h2] at h
        cases h
        simp only [List.map_cons]
        rw [ih rest' h2]

/-- Claim C3: placeholder synthesis is deterministic and canonically ordered.
The embedding is a pure function of (config, registry, graph), so two runs on
identical inputs are definitionally equal; this theorem pins down what that
output is: the iteration keys are the strictly `std::less`-sorted canonical
tensor strings of the feeds, every group's placeholder name is the byte-wise
`"aot_feed_<slot>/<node>"` derived from its (last-winning) feed, the
placeholder nodes are appended in exactly that key order, and the returned
remapping maps each canonical key to that same placeholder name — nothing
depends on unordered-container iteration order. -/
theorem addPlaceholdersForFeeds_canonical (config : Config)
    (reg : List (String × OpInfo)) (g : GraphDef)
    (remap : List (String × String)) (g' : GraphDef)
    (h : AddPlaceholdersForFeeds config reg g = .ok (remap, g')) :
    ((buildPlaceholderInfo config.feed).map (fun kv => kv.1)).Pairwise
        (fun a b => strLt a b = true) ∧
    (∀ kv ∈ buildPlaceholderInfo config.feed,
        kv.2.placeholder_name = phName kv.2.feed ∧
        kv.1 = TensorIdToString kv.2.feed.id) ∧
    ((g'.node.drop g.node.length).map (fun nd => nd.name) =
      (buildPlaceholderInfo config.feed).map (fun kv => kv.2.placeholder_name)) ∧
    remap = buildFeedRemapping config.feed ∧
    (∀ k, lookupAssoc remap k =
      ((buildPlaceholderInfo config.feed).find? (fun p => p.1 = k)).map
        (fun p => p.2.placeholder_name)) := by
  obtain ⟨hsort, hinv, hlk⟩ := buildPlaceholderInfo_invariant config.feed [] []
    List.Pairwise.nil (fun kv hkv => absurd hkv (List.not_mem_nil kv)) (fun k => rfl)
  unfold AddPlaceholdersForFeeds at h
  cases hres : resolveAll reg g (buildPlaceholderInfo config.feed) with
  | error e =>
    rw [hres] at h
    cases h
  | ok pinfo =>
    rw [hres] at h
    simp only [Except.ok.injEq, Prod.mk.injEq] at h
    obtain ⟨hr, hg⟩ := h
    subst hr
    subst hg
    have hshape := resolveAll_shape reg g _ pinfo hres
    have hnames : pinfo.map (fun kv => kv.2.placeholder_name) =
        (buildPlaceholderInfo config.feed).map (fun kv => kv.2.placeholder_name) := by
      have h2 := congrArg (List.map (fun q : String × String => q.2)) hshape
      simpa [List.map_map, Function.comp] using h2
    refine ⟨?_, hinv, ?_, rfl, hlk⟩
    · rw [List.pairwise_map]
      exact hsort
    · rw [List.map_append,
        show g.node.length = (g.node.map (rewriteInputs pinfo)).length from
          (List.length_map _ _).symm,
        List.drop_left, List.map_map, List.map_map]
      exact hnames

/-- Config for the C3 witness: one feed `"a":0` with explicit type `3`. -/
def synthCfg : Config := ⟨[⟨⟨"a", 0⟩, [], 3, ""⟩], [⟨⟨"a", 0⟩, ""⟩]⟩

/-- Graph for the C3 witness: node `a` and a consumer `b` reading `"a:0"`. -/
def synthG : GraphDef :=
  ⟨[⟨"a", "OpA", [], [], ""⟩, ⟨"b", "OpB", ["a:0"], [], ""⟩], 0⟩

/-- Output graph of the C3 witness run: `b` repointed at the placeholder,
which is appended last. -/
def synthOut : GraphDef :=
  ⟨[⟨"a", "OpA", [], [], ""⟩, ⟨"b", "OpB", ["aot_feed_0/a"], [], ""⟩,
    ⟨"aot_feed_0/a", "PlaceholderV2", [],
      [("dtype", .typ 3), ("shape", .shape [])], ""⟩], 0⟩

/-- Witness for C3 at concrete inputs. -/
theorem addPlaceholdersForFeeds_canonical_witness :
    AddPlaceholdersForFeeds synthCfg [] synthG =
      .ok ([("a:0", "aot_feed_0/a")], synthOut) ∧
    (((buildPlaceholderInfo synthCfg.feed).map (fun kv => kv.1)).Pairwise
        (fun a b => strLt a b = true) ∧
      (∀ kv ∈ buildPlaceholderInfo synthCfg.feed,
        kv.2.placeholder_name = phName kv.2.feed ∧
        kv.1 = TensorIdToString kv.2.feed.id) ∧
      ((synthOut.node.drop synthG.node.length).map (fun nd => nd.name) =
        (buildPlaceholderInfo synthCfg.feed).map (fun kv => kv.2.placeholder_name)) ∧
      [("a:0", "aot_feed_0/a")] = buildFeedRemapping synthCfg.feed ∧
      (∀ k, lookupAssoc [("a:0", "aot_feed_0/a")] k =
        ((buildPlaceholderInfo synthCfg.feed).find? (fun p => p.1 = k)).map
          (fun p => p.2.placeholder_name))) :=
  ⟨rfl, addPlaceholdersForFeeds_canonical synthCfg [] synthG
    [("a:0", "aot_feed_0/a")] synthOut rfl⟩

lemma resolveAll_error_at (reg : List (String × OpInfo)) (g : GraphDef)
    (info : PlaceholderInfo) (k : String) (e : Error)
    (he : resolvePlaceholderType reg g info = .error e) :
    ∀ (pre post : List (String × PlaceholderInfo)),
      (∀ kv ∈ pre, ∃ dt, resolvePlaceholderType reg g kv.2 = .ok dt) →
      resolveAll reg g (pre ++ (k, info) :: post) = .error e := by
  intro pre
  induction pre with
  | nil =>
    intro post _
    show resolveAll reg g ((k, info) :: post) = .error e
    unfold resolveAll
    rw [he]
  | cons p rest ih =>
    intro post hpre
    obtain ⟨k0, i0⟩ := p
    obtain ⟨dt, hdt⟩ := hpre (k0, i0) (List.mem_cons_self _ _)
    show resolveAll reg g ((k0, i0) :: (rest ++ (k, info) :: post)) = .error e
    unfold resolveAll
    rw [hdt, ih post (fun kv hkv => hpre kv (List.mem_cons_of_mem _ hkv))]

/-- Claim C10 (amended): placeholder synthesis fails with `NotFound` naming
the feed tensor whose node is absent — even when that feed declares an
explicit data type, so the lookup is not needed for type inference —
provided every feed group whose canonical key precedes it in the sorted
iteration resolves successfully (an earlier group's failure, e.g. an
`InvalidArgument` slot error, preempts the `NotFound`; see the
counterexample). -/
theorem addPlaceholdersForFeeds_missing_node (config : Config)
    (reg : List (String × OpInfo)) (g : GraphDef)
    (pre post : List (String × PlaceholderInfo)) (k : String)
    (info : PlaceholderInfo)
    (hsplit : buildPlaceholderInfo config.feed = pre ++ (k, info) :: post)
    (hpre : ∀ kv ∈ pre, ∃ dt, resolvePlaceholderType reg g kv.2 = .ok dt)
    (hmiss : nodeByName g.node info.feed.id.node_name = none) :
    AddPlaceholdersForFeeds config reg g =
      .error ⟨.NotFound, "Can't find feed node: " ++ TensorIdToString info.feed.id⟩ := by
  have he : resolvePlaceholderType reg g info =
      .error ⟨.NotFound, "Can't find feed node: " ++ TensorIdToString info.feed.id⟩ := by
    unfold resolvePlaceholderType
    rw [hmiss]
  unfold AddPlaceholdersForFeeds
  rw [hsplit, resolveAll_error_at reg g info k _ he pre post hpre]

/-- Config for the C10 counterexample: feed `"a":5` with no explicit type on
a one-output op (slot out of range), plus feed `"b":0` with an explicit type
whose node is absent from the graph. -/
def missCfg : Config :=
  ⟨[⟨⟨"a", 5⟩, [], 0, ""⟩, ⟨⟨"b", 0⟩, [], 3, ""⟩], [⟨⟨"a", 0⟩, ""⟩]⟩

/-- Graph for the C10 scenarios: only node `a`. -/
def missG : GraphDef := ⟨[⟨"a", "OpA", [], [], ""⟩], 0⟩

/-- Registry for the C10 scenarios: `OpA` has exactly one output of type 1. -/
def missReg : List (String × OpInfo) := [("OpA", ⟨[1]⟩)]

/-- Counterexample to claim C10 as stated: `missCfg` contains a feed whose
node is absent (and which declares an explicit type), yet synthesis fails
with `InvalidArgument`, not `NotFound` — the earlier sorted group `"a:5"`
fails its slot check first. -/
theorem addPlaceholdersForFeeds_missing_node_counterexample :
    (∃ f ∈ missCfg.feed, f.type_ ≠ 0 ∧ ∀ nd ∈ missG.node, nd.name ≠ f.id.node_name) ∧
    AddPlaceholdersForFeeds missCfg missReg missG =
      .error ⟨.InvalidArgument, "Invalid output_index 5 for feed node a"⟩ := by
  constructor
  · exact ⟨⟨⟨"b", 0⟩, [], 3, ""⟩, by decide, by decide, by decide⟩
  · rfl

/-- Config for the C10 witness: feed `"a":0` resolves fine, feed `"b":0`
declares an explicit type but its node is absent. -/
def missCfg2 : Config :=
  ⟨[⟨⟨"a", 0⟩, [], 0, ""⟩, ⟨⟨"b", 0⟩, [], 3, ""⟩], [⟨⟨"a", 0⟩, ""⟩]⟩

/-- Witness for the amended claim C10 at concrete inputs. -/
theorem addPlaceholdersForFeeds_missing_node_witness :
    buildPlaceholderInfo missCfg2.feed =
      [("a:0", ⟨⟨⟨"a", 0⟩, [], 0, ""⟩, "aot_feed_0/a", 0⟩)] ++
        ("b:0", ⟨⟨⟨"b", 0⟩, [], 3, ""⟩, "aot_feed_0/b", 0⟩) :: [] ∧
    (∀ kv ∈ [(("a:0" : String),
        (⟨⟨⟨"a", 0⟩, [], 0, ""⟩, "aot_feed_0/a", 0⟩ : PlaceholderInfo))],
      ∃ dt, resolvePlaceholderType missReg missG kv.2 = .ok dt) ∧
    nodeByName missG.node "b" = none ∧
    AddPlaceholdersForFeeds missCfg2 missReg missG =
      .error ⟨.NotFound, "Can't find feed node: b:0"⟩ := by
  refine ⟨rfl, ?_, rfl, ?_⟩
  · intro kv hkv
    rcases List.mem_cons.mp hkv with e | e
    · subst e
      exact ⟨1, rfl⟩
    · cases e
  · exact addPlaceholdersForFeeds_missing_node missCfg2 missReg missG
      [("a:0", ⟨⟨⟨"a", 0⟩, [], 0, ""⟩, "aot_feed_0/a", 0⟩)] []
      "b:0" ⟨⟨⟨"b", 0⟩, [], 3, ""⟩, "aot_feed_0/b", 0⟩ rfl
      (by
        intro kv hkv
        rcases List.mem_cons.mp hkv with e | e
        · subst e
          exact ⟨1, rfl⟩
        · cases e)
      rfl

end Tf2XlaUtil
